import Mathlib

/-!
Shallow embedding of the `pwnd` entity-extraction engine
(`rust-extract/src/lib.rs` and `wasm-ner/src/lib.rs`).

Texts are modelled as UTF-8 byte sequences (`List Nat`), indexed exactly as
Rust `&str` slices index them (byte offsets).  The `regex` crate is an
external library, not code of this repository: each call site of
`captures_iter` / `find_iter` is modelled by an explicit list of
`(start, end)` byte-offset pairs — the raw matches the engine returned for
that pattern, in scan order.  Where a theorem needs it, these lists are
constrained by the contract the regex engine guarantees for the patterns of
this repository (every pattern requires at least one character, so
`0 <= start < end <= text.length`); the matched text itself is derived from
the offsets as the slice, which is what `Match::as_str` returns.

Rust string slicing `&text[a..b]` panics when `a` or `b` is not a UTF-8
character boundary; the rust-extract model therefore returns `Option`,
with `none` standing for a panic of the call.
-/

set_option maxHeartbeats 1000000

namespace NER

/-- Bytes of an ASCII string literal (used for the fixed pattern constants,
stopword tables and tag text appearing in the source). -/
def asciiBytes (s : String) : List Nat := s.data.map (fun c => c.toNat)

/-- Contents of the Rust slice `&text[a..b]` as bytes. -/
def sliceB (text : List Nat) (a b : Nat) : List Nat := (text.drop a).take (b - a)

/-- ASCII lowercasing of one byte, the byte-level effect of Rust
`str::to_lowercase` on ASCII text (non-ASCII bytes are left unchanged;
the theorems below never depend on how the dedup key maps non-ASCII
letters, only on the same key function being used on both sides). -/
def lowerByte (b : Nat) : Nat := if 65 ≤ b ∧ b ≤ 90 then b + 32 else b

/-- Byte-level model of `str::to_lowercase`. -/
def lowercaseBytes (s : List Nat) : List Nat := s.map lowerByte

/-- Concatenation-map over a list (the iteration order of nested `for` loops
over patterns and their matches). -/
def concatMap (f : α → List β) : List α → List β
  | [] => []
  | x :: t => f x ++ concatMap f t

/-- Rust `str::contains(pat)` on bytes: `pat` occurs contiguously in `s`. -/
def containsSeq (pat : List Nat) : List Nat → Bool
  | [] => decide (pat = [])
  | b :: t => pat.isPrefixOf (b :: t) || containsSeq pat t

/-- Rust `str::replace(c, "")` for a one-byte pattern: every occurrence of
the byte is removed. -/
def removeByte (a : Nat) : List Nat → List Nat
  | [] => []
  | x :: t => if x = a then removeByte a t else x :: removeByte a t

/-- Rust `str::replace(c, rep)` for a one-byte pattern and a replacement
string: every occurrence of the byte is replaced by `rep`. -/
def replaceByte (a : Nat) (rep : List Nat) : List Nat → List Nat
  | [] => []
  | x :: t => (if x = a then rep else [x]) ++ replaceByte a rep t

/-- Rust `str::replace(pat, "")` for a two-byte UTF-8 pattern (`"£"`),
removing non-overlapping occurrences left to right. -/
def removeSeq2 (a b : Nat) : List Nat → List Nat
  | x :: y :: t =>
    if x = a ∧ y = b then removeSeq2 a b t
    else x :: removeSeq2 a b (y :: t)
  | l => l

/-- Rust `str::replace(pat, "")` for a three-byte UTF-8 pattern (`"€"`),
removing non-overlapping occurrences left to right. -/
def removeSeq3 (a b c : Nat) : List Nat → List Nat
  | x :: y :: z :: t =>
    if x = a ∧ y = b ∧ z = c then removeSeq3 a b c t
    else x :: removeSeq3 a b c (y :: z :: t)
  | l => l

/-- ASCII whitespace test, the byte-level effect of Rust
`char::is_whitespace` used by `split_whitespace` (the inputs arising in
this development are ASCII). -/
def isWsB (b : Nat) : Bool := b = 32 || b = 9 || b = 10 || b = 11 || b = 12 || b = 13

/-- Rust `s.split_whitespace().next()`: the first maximal run of
non-whitespace bytes, or `none` when the string is all whitespace. -/
def firstTok (s : List Nat) : Option (List Nat) :=
  let t := s.dropWhile isWsB
  if t = [] then none else some (t.takeWhile (fun b => !isWsB b))

/-- ASCII digit test on a byte. -/
def isDigitB (b : Nat) : Bool := 48 ≤ b && b ≤ 57

/-- Numeric value of a run of ASCII digit bytes. -/
def digitsVal (l : List Nat) : Nat := l.foldl (fun a b => a * 10 + (b - 48)) 0

/-- Exponent digits (with sign already consumed) of a float literal; the
whole remaining input must be digits. -/
def parseExpDigits (r : List Nat) (neg : Bool) : Option Int :=
  let ds := r.takeWhile isDigitB
  if ds = [] ∨ r.dropWhile isDigitB ≠ [] then none
  else some (if neg then -(digitsVal ds : Int) else (digitsVal ds : Int))

/-- Optionally signed exponent digits of a float literal. -/
def parseSignedExp : List Nat → Option Int
  | 43 :: r => parseExpDigits r false
  | 45 :: r => parseExpDigits r true
  | r => parseExpDigits r false

/-- Exponent part of a float literal: empty, or `e`/`E` followed by an
optionally signed digit run. -/
def parseExpPart : List Nat → Option Int
  | [] => some 0
  | 101 :: r => parseSignedExp r
  | 69 :: r => parseSignedExp r
  | _ => none

/-- Mantissa of a float literal: `digits`, `digits.digits`, `digits.` or
`.digits`; returns its exact value and the unconsumed rest. -/
def parseMantissa (s : List Nat) : Option (Rat × List Nat) :=
  let ip := s.takeWhile isDigitB
  let r1 := s.dropWhile isDigitB
  match r1 with
  | 46 :: r2 =>
    let fp := r2.takeWhile isDigitB
    let r3 := r2.dropWhile isDigitB
    if ip = [] ∧ fp = [] then none
    else some ((digitsVal ip : Rat) + (digitsVal fp : Rat) / (10 : Rat) ^ fp.length, r3)
  | _ => if ip = [] then none else some ((digitsVal ip : Rat), r1)

/-- Body of `parseF64` after the optional leading sign. -/
def parseF64Core (s : List Nat) (neg : Bool) : Option Rat :=
  match parseMantissa s with
  | none => none
  | some (m, rest) =>
    match parseExpPart rest with
    | none => none
    | some e => some ((if neg then -m else m) * (10 : Rat) ^ e)

/-- Model of Rust `str::parse::<f64>()` restricted to the finite decimal and
scientific forms (no `inf`/`NaN`); the value is kept exact as a rational.
Every numeric token reaching this function in the theorems below is exactly
representable as an `f64` and stays below `2^53` after scaling, so the
rational value coincides with the `f64` the code computes. -/
def parseF64 : List Nat → Option Rat
  | 43 :: r => parseF64Core r false
  | 45 :: r => parseF64Core r true
  | r => parseF64Core r false

/-- Rust `str::is_char_boundary(i)`: `0` and the length are boundaries, any
other in-range index is a boundary iff the byte there is not a UTF-8
continuation byte; indexes past the end are not boundaries. -/
def isCharBoundary (text : List Nat) (i : Nat) : Bool :=
  if i = 0 then true
  else
    match text.get? i with
    | some b => decide (¬(128 ≤ b ∧ b < 192))
    | none => decide (i = text.length)

/-- Rust string slicing `&text[a..b]`: `some` slice when the range is
ordered and both ends are character boundaries, `none` (a panic) otherwise. -/
def sliceChecked (text : List Nat) (a b : Nat) : Option (List Nat) :=
  if a ≤ b ∧ isCharBoundary text a ∧ isCharBoundary text b then
    some (sliceB text a b)
  else none

/-- `Entity` of `rust-extract/src/lib.rs`.  `value` and `context` are byte
strings; `confidence` is the category's fixed constant kept as an exact
rational; `metadata` is the optional `normalized` map, its string value
represented by the exact rational the `f64` holds (all values arising in
this development are exactly representable). -/
structure Entity where
  value : List Nat
  entity_type : String
  start : Nat
  end_ : Nat
  confidence : Rat
  context : Option (List Nat)
  metadata : Option (List (String × Rat))
deriving DecidableEq

/-- `ExtractionResult` of `rust-extract/src/lib.rs`. -/
structure ExtractionResult where
  dates : List Entity
  persons : List Entity
  organizations : List Entity
  amounts : List Entity
  locations : List Entity
  emails : List Entity
  phones : List Entity
  urls : List Entity
  total_count : Nat
  processing_time_ms : Nat
deriving DecidableEq

/-- Raw regex matches for one call of the rust-extract engine: one list of
`(start, end)` pairs per pattern of each category, in scan order (for
`dates`, `persons`, `orgs`, `amounts`, `locations` one inner list per rule,
in rule-declaration order; `emails`, `phones`, `urls` use a single rule). -/
structure Matches where
  dates : List (List (Nat × Nat))
  persons : List (List (Nat × Nat))
  orgs : List (List (Nat × Nat))
  amounts : List (List (Nat × Nat))
  locations : List (List (Nat × Nat))
  emails : List (Nat × Nat)
  phones : List (Nat × Nat)
  urls : List (Nat × Nat)
deriving DecidableEq

/-- All raw match pairs of a `Matches` bundle. -/
def Matches.allPairs (m : Matches) : List (Nat × Nat) :=
  concatMap id m.dates ++ concatMap id m.persons ++ concatMap id m.orgs ++
    concatMap id m.amounts ++ concatMap id m.locations ++
    m.emails ++ m.phones ++ m.urls

/-- The regex-engine match contract for the patterns of this repository:
every pattern consumes at least one character, and matches lie inside the
text (match offsets are always character boundaries, which the theorems
below do not need beyond this). -/
def WFMatches (text : List Nat) (m : Matches) : Prop :=
  ∀ p ∈ m.allPairs, p.1 < p.2 ∧ p.2 ≤ text.length

instance (text : List Nat) (m : Matches) : Decidable (WFMatches text m) := by
  unfold WFMatches; infer_instance

/-- Loop body of `extract_with_patterns`: walks the raw matches in
pattern-then-scan order carrying the `seen` set of lowercased values;
for a fresh value it computes the 50-byte context slice (whose slicing can
panic, hence `Option`) and emits the entity. -/
def ewpGo (text : List Nat) (ty : String) (conf : Rat) :
    List (Nat × Nat) → List (List Nat) → Option (List Entity)
  | [], _ => some []
  | (s, e) :: rest, seen =>
    if lowercaseBytes (sliceB text s e) ∈ seen then ewpGo text ty conf rest seen
    else
      Option.bind (sliceChecked text (s - 50) (min (e + 50) text.length)) (fun ctx =>
        (ewpGo text ty conf rest (lowercaseBytes (sliceB text s e) :: seen)).map
          (fun tail => ⟨sliceB text s e, ty, s, e, conf, some ctx, none⟩ :: tail))

/-- `extract_with_patterns` of `rust-extract/src/lib.rs`: iterate the
patterns in declaration order and their matches in scan order, dedup by
lowercased value, attach the context snippet. -/
def extract_with_patterns (text : List Nat) (pmatches : List (List (Nat × Nat)))
    (ty : String) (conf : Rat) : Option (List Entity) :=
  ewpGo text ty conf (concatMap id pmatches) []

/-- `extract_dates`. -/
def extract_dates (text : List Nat) (pm : List (List (Nat × Nat))) : Option (List Entity) :=
  extract_with_patterns text pm "date" (85 / 100)

/-- The person false-positive stopword list of `extract_persons`. -/
def personBlacklist : List (List Nat) :=
  [asciiBytes "the", asciiBytes "this", asciiBytes "that", asciiBytes "with",
   asciiBytes "from", asciiBytes "have", asciiBytes "will", asciiBytes "been",
   asciiBytes "january", asciiBytes "february", asciiBytes "march",
   asciiBytes "april", asciiBytes "may", asciiBytes "june", asciiBytes "july",
   asciiBytes "august", asciiBytes "september", asciiBytes "october",
   asciiBytes "november", asciiBytes "december", asciiBytes "monday",
   asciiBytes "tuesday", asciiBytes "wednesday", asciiBytes "thursday",
   asciiBytes "friday", asciiBytes "saturday", asciiBytes "sunday"]

/-- `extract_persons`: pattern extraction, then discard any entity whose
lowercased value contains a stopword as a substring. -/
def extract_persons (text : List Nat) (pm : List (List (Nat × Nat))) : Option (List Entity) :=
  (extract_with_patterns text pm "person" (75 / 100)).map
    (List.filter (fun e =>
      !(personBlacklist.any (fun b => containsSeq b (lowercaseBytes e.value)))))

/-- The short-acronym allow-list of `extract_organizations`. -/
def knownAcronyms : List (List Nat) :=
  [asciiBytes "FBI", asciiBytes "CIA", asciiBytes "NSA", asciiBytes "SEC",
   asciiBytes "DOJ", asciiBytes "IRS", asciiBytes "EPA", asciiBytes "FDA",
   asciiBytes "FTC", asciiBytes "NYSE", asciiBytes "LLC", asciiBytes "CEO",
   asciiBytes "CFO"]

/-- `extract_organizations`: pattern extraction, then keep a value of at
most 3 bytes only when it is a known acronym. -/
def extract_organizations (text : List Nat) (pm : List (List (Nat × Nat))) :
    Option (List Entity) :=
  (extract_with_patterns text pm "organization" (80 / 100)).map
    (List.filter (fun e =>
      if e.value.length ≤ 3 then knownAcronyms.contains e.value else true))

/-- The symbol-stripping step of amount normalization:
`value.replace(",", "").replace("$", "").replace("€", "").replace("£", "")`
(`€` is the UTF-8 bytes `226 130 172`, `£` is `194 163`). -/
def stripAmountSymbols (v : List Nat) : List Nat :=
  removeSeq2 194 163 (removeSeq3 226 130 172 (removeByte 36 (removeByte 44 v)))

/-- The amount normalization of `extract_amounts`: after stripping
separators and currency symbols, scale the first whitespace-delimited token
by a million when the lowercased text contains `million` or the text
contains `M`, else by a billion when it contains `billion` or `B`, else
leave it unscaled; any unparsable token yields `0`. -/
def normalizeAmount (value : List Nat) : Rat :=
  let v := stripAmountSymbols value
  if containsSeq (asciiBytes "million") (lowercaseBytes v) || containsSeq [77] v then
    (((firstTok v).bind parseF64).map (fun n => n * 1000000)).getD 0
  else if containsSeq (asciiBytes "billion") (lowercaseBytes v) || containsSeq [66] v then
    (((firstTok v).bind parseF64).map (fun n => n * 1000000000)).getD 0
  else
    ((firstTok v).bind parseF64).getD 0

/-- `extract_amounts`: pattern extraction, then store the normalized value
as metadata under key `normalized`. -/
def extract_amounts (text : List Nat) (pm : List (List (Nat × Nat))) : Option (List Entity) :=
  (extract_with_patterns text pm "amount" (90 / 100)).map
    (List.map (fun e => { e with metadata := some [("normalized", normalizeAmount e.value)] }))

/-- `extract_locations`. -/
def extract_locations (text : List Nat) (pm : List (List (Nat × Nat))) :
    Option (List Entity) :=
  extract_with_patterns text pm "location" (70 / 100)

/-- Shared shape of `extract_emails` / `extract_phones` / `extract_urls`:
a plain `find_iter` map with no dedup, no context, no metadata. -/
def extract_simple (text : List Nat) (ms : List (Nat × Nat)) (ty : String)
    (conf : Rat) : List Entity :=
  ms.map (fun p => ⟨sliceB text p.1 p.2, ty, p.1, p.2, conf, none, none⟩)

/-- `extract_emails`. -/
def extract_emails (text : List Nat) (ms : List (Nat × Nat)) : List Entity :=
  extract_simple text ms "email" (95 / 100)

/-- `extract_phones`. -/
def extract_phones (text : List Nat) (ms : List (Nat × Nat)) : List Entity :=
  extract_simple text ms "phone" (80 / 100)

/-- `extract_urls`. -/
def extract_urls (text : List Nat) (ms : List (Nat × Nat)) : List Entity :=
  extract_simple text ms "url" (95 / 100)

/-- The eight category lists and aggregate count of `extract_all`, before
the elapsed wall-clock time is filled in (the `rayon::join` fan-out/merge
is deterministic: every branch writes only its own list and the merge is a
fixed-shape record assembly, so completion order cannot influence this).
A `none` models a panic in any branch, which `rayon::join` propagates. -/
def extract_all_lists (text : List Nat) (m : Matches) : Option ExtractionResult := do
  let dates ← extract_dates text m.dates
  let persons ← extract_persons text m.persons
  let orgs ← extract_organizations text m.orgs
  let amounts ← extract_amounts text m.amounts
  let locations ← extract_locations text m.locations
  let emails := extract_emails text m.emails
  let phones := extract_phones text m.phones
  let urls := extract_urls text m.urls
  pure
    { dates := dates, persons := persons, organizations := orgs,
      amounts := amounts, locations := locations, emails := emails,
      phones := phones, urls := urls,
      total_count := dates.length + persons.length + orgs.length +
        amounts.length + locations.length + emails.length + phones.length +
        urls.length,
      processing_time_ms := 0 }

/-- `extract_all`.  The elapsed wall-clock time measured by
`Instant::now()` / `elapsed()` is nondeterministic real time; it enters the
model as the explicit input `elapsed`, written into the result at the end
exactly as the code does. -/
def extract_all (text : List Nat) (m : Matches) (elapsed : Nat) :
    Option ExtractionResult :=
  (extract_all_lists text m).map (fun r => { r with processing_time_ms := elapsed })

/-- The requested-or-empty gate of `extract_types`:
each extractor runs only when its name is requested; an unrequested
category contributes an empty list. -/
def gated (c : Bool) (x : Option (List Entity)) : Option (List Entity) :=
  if c then x else pure []

/-- The category lists of `extract_types` (continued): each `gated` call is
the source's `if requested { run the extractor } else { vec![] }`. -/
def extract_types_lists (text : List Nat) (types : List String) (m : Matches) :
    Option ExtractionResult := do
  let dates ← gated (types.contains "dates") (extract_dates text m.dates)
  let persons ← gated (types.contains "persons") (extract_persons text m.persons)
  let orgs ← gated (types.contains "organizations" || types.contains "orgs")
    (extract_organizations text m.orgs)
  let amounts ← gated (types.contains "amounts") (extract_amounts text m.amounts)
  let locations ← gated (types.contains "locations") (extract_locations text m.locations)
  let emails := if types.contains "emails" then extract_emails text m.emails else []
  let phones := if types.contains "phones" then extract_phones text m.phones else []
  let urls := if types.contains "urls" then extract_urls text m.urls else []
  pure
    { dates := dates, persons := persons, organizations := orgs,
      amounts := amounts, locations := locations, emails := emails,
      phones := phones, urls := urls,
      total_count := dates.length + persons.length + orgs.length +
        amounts.length + locations.length + emails.length + phones.length +
        urls.length,
      processing_time_ms := 0 }

/-- `extract_types`, with the elapsed time as explicit input as in
`extract_all`. -/
def extract_types (text : List Nat) (types : List String) (m : Matches)
    (elapsed : Nat) : Option ExtractionResult :=
  (extract_types_lists text types m).map
    (fun r => { r with processing_time_ms := elapsed })

/-- One batch document: its text, its raw matches, and the elapsed time its
own `extract_all` call measures. -/
def BatchDoc := List Nat × Matches × Nat

/-- `extract_batch`: the parallel map over documents.  Results are written
back positionally (`par_iter().map().collect()`), so the model is the plain
map in input order; a panic in any document fails the whole call. -/
def extract_batch : List BatchDoc → Option (List ExtractionResult)
  | [] => some []
  | d :: rest =>
    Option.bind (extract_all d.1 d.2.1 d.2.2) (fun r =>
      (extract_batch rest).map (fun rs => r :: rs))

/-!
Model of `wasm-ner/src/lib.rs`.  Matches of the six highlighter regexes are
again explicit `(start, end)` byte-offset lists; the matched text is the
slice.  All slice positions used by the highlighter are regex match
boundaries, which are always character boundaries, so the unchecked slice
is the faithful model here.
-/

/-- `HighlightedEntity` of `wasm-ner/src/lib.rs`. -/
structure HighlightedEntity where
  text : List Nat
  entity_type : String
  start : Nat
  end_ : Nat
deriving DecidableEq

/-- `HighlightResult` of `wasm-ner/src/lib.rs`. -/
structure HighlightResult where
  html : List Nat
  entities : List HighlightedEntity
  count : Nat
deriving DecidableEq

/-- One element of the `all_entities` vector of `highlight_entities`: the
tuple `(start, end, matched text, entity type, css class)`. -/
structure HSpan where
  start : Nat
  end_ : Nat
  text : List Nat
  ty : String
  cls : String
deriving DecidableEq

/-- Raw matches of the six highlighter regexes on one text, in scan order. -/
structure WMatches where
  persons : List (Nat × Nat)
  orgs : List (Nat × Nat)
  amounts : List (Nat × Nat)
  dates : List (Nat × Nat)
  locations : List (Nat × Nat)
  emails : List (Nat × Nat)
deriving DecidableEq

/-- Tag one category's raw matches as `HSpan`s (the per-category collection
loops of `highlight_entities`). -/
def tagSpans (text : List Nat) (ms : List (Nat × Nat)) (ty cls : String) : List HSpan :=
  ms.map (fun p => ⟨p.1, p.2, sliceB text p.1 p.2, ty, cls⟩)

/-- The collection phase of `highlight_entities`: all raw matches of the six
categories, concatenated in the source's category order. -/
def collectAll (text : List Nat) (w : WMatches) : List HSpan :=
  tagSpans text w.persons "person" "entity-person" ++
    tagSpans text w.orgs "organization" "entity-org" ++
    tagSpans text w.amounts "amount" "entity-amount" ++
    tagSpans text w.dates "date" "entity-date" ++
    tagSpans text w.locations "location" "entity-location" ++
    tagSpans text w.emails "email" "entity-email"

/-- Stable insertion into a start-sorted list (new element goes after all
existing elements with a smaller-or-equal key). -/
def insertByStart (x : HSpan) : List HSpan → List HSpan
  | [] => [x]
  | y :: ys => if x.start ≤ y.start then x :: y :: ys else y :: insertByStart x ys

/-- Model of `all_entities.sort_by_key(|e| e.0)`: Rust's sort is stable, and
stable insertion sort computes the same list as any stable sort by the same
key. -/
def sortByStart : List HSpan → List HSpan
  | [] => []
  | x :: xs => insertByStart x (sortByStart xs)

/-- The greedy overlap-removal loop of `highlight_entities`: a cursor
(`last_end`) accepts a span iff its start is at or after the cursor, then
advances to that span's end. -/
def greedyGo (cursor : Nat) : List HSpan → List HSpan
  | [] => []
  | e :: rest =>
    if cursor ≤ e.start then e :: greedyGo e.end_ rest else greedyGo cursor rest

/-- The filtered span list of `highlight_entities` (cursor starts at 0). -/
def resolveOverlaps (l : List HSpan) : List HSpan := greedyGo 0 l

/-- `escape_html` of `wasm-ner/src/lib.rs`, byte for byte: the five
sequential `String::replace` calls, in source order (`&` first).  The five
replaced characters are ASCII, and in UTF-8 their bytes never occur inside
a multi-byte character, so the byte-level replacement is exact. -/
def escape_html (s : List Nat) : List Nat :=
  replaceByte 39 (asciiBytes "&#x27;")
    (replaceByte 34 (asciiBytes "&quot;")
      (replaceByte 62 (asciiBytes "&gt;")
        (replaceByte 60 (asciiBytes "&lt;")
          (replaceByte 38 (asciiBytes "&amp;") s))))

/-- The opening tag emitted for one accepted span by `highlight_entities`:
`<span class="entity CLS" data-type="TY" title="TY">`. -/
def spanOpen (cls ty : String) : List Nat :=
  asciiBytes "<span class=\"entity " ++ asciiBytes cls ++
    asciiBytes "\" data-type=\"" ++ asciiBytes ty ++
    asciiBytes "\" title=\"" ++ asciiBytes ty ++ asciiBytes "\">"

/-- The closing tag `</span>`. -/
def spanClose : List Nat := asciiBytes "</span>"

/-- The rendering loop of `highlight_entities`: escaped literal text up to
the span, the tagged escaped match, then the rest from the span's end; the
trailing literal after the last span is escaped too. -/
def renderHtml (text : List Nat) : Nat → List HSpan → List Nat
  | lp, [] => escape_html (sliceB text lp text.length)
  | lp, s :: rest =>
    escape_html (sliceB text lp s.start) ++ spanOpen s.cls s.ty ++
      escape_html s.text ++ spanClose ++ renderHtml text s.end_ rest

/-- `highlight_entities` of `wasm-ner/src/lib.rs`: collect, stable-sort by
start, greedily drop overlaps, render. -/
def highlight_entities (text : List Nat) (w : WMatches) : HighlightResult :=
  let filtered := resolveOverlaps (sortByStart (collectAll text w))
  { html := renderHtml text 0 filtered,
    entities := filtered.map (fun s => ⟨s.text, s.ty, s.start, s.end_⟩),
    count := filtered.length }

/-- `extract_entities` of `wasm-ner/src/lib.rs`: a fresh raw collection
pass over the five category loops the function actually contains (person,
organization, amount, date, location — the code has no email loop), with
no sorting, no overlap resolution and no dedup. -/
def extract_entities (text : List Nat) (w : WMatches) : List HighlightedEntity :=
  (tagSpans text w.persons "person" "entity-person" ++
      tagSpans text w.orgs "organization" "entity-org" ++
      tagSpans text w.amounts "amount" "entity-amount" ++
      tagSpans text w.dates "date" "entity-date" ++
      tagSpans text w.locations "location" "entity-location").map
    (fun s => ⟨s.text, s.ty, s.start, s.end_⟩)

/-- Modelled from the spec: the spec's description of `extract_entities`
(section 6, confirmed by section 4.5) says the raw pass covers six
categories — person, organization, amount, date, location, _and email_.
This definition follows the spec's words; it exists only to be compared
with the code's `extract_entities` above, which has no email pass. -/
def extract_entities_spec (text : List Nat) (w : WMatches) : List HighlightedEntity :=
  (tagSpans text w.persons "person" "entity-person" ++
      tagSpans text w.orgs "organization" "entity-org" ++
      tagSpans text w.amounts "amount" "entity-amount" ++
      tagSpans text w.dates "date" "entity-date" ++
      tagSpans text w.locations "location" "entity-location" ++
      tagSpans text w.emails "email" "entity-email").map
    (fun s => ⟨s.text, s.ty, s.start, s.end_⟩)

/-- Modelled from the spec: the normalization rule of claim C4 /
section 4.2 as literally written — strip thousands separators and currency
symbols, parse the leading numeric token, multiply by 1,000,000 if the text
contains `million`, else by 1,000,000,000 if it contains `billion`, else
leave unscaled; unparsable text normalizes to 0.  It exists only to be
compared with the code's `normalizeAmount`, which additionally scales on
the bare letters `M` and `B`. -/
def specNormalizeAmount (value : List Nat) : Rat :=
  let v := stripAmountSymbols value
  if containsSeq (asciiBytes "million") (lowercaseBytes v) then
    (((firstTok v).bind parseF64).map (fun n => n * 1000000)).getD 0
  else if containsSeq (asciiBytes "billion") (lowercaseBytes v) then
    (((firstTok v).bind parseF64).map (fun n => n * 1000000000)).getD 0
  else
    ((firstTok v).bind parseF64).getD 0

/-- Removing the inline marker tags from rendered markup (the reverse
direction named by the spec's roundtrip property): every maximal segment
from a `<` up to the next `>` is dropped, everything else is kept.  The
`Bool` state says whether the scanner is inside a tag. -/
def stripTagsAux : Bool → List Nat → List Nat
  | _, [] => []
  | false, b :: t => if b = 60 then stripTagsAux true t else b :: stripTagsAux false t
  | true, b :: t => if b = 62 then stripTagsAux false t else stripTagsAux true t

/-- Tag stripping starts outside any tag. -/
def stripTags (s : List Nat) : List Nat := stripTagsAux false s

/-- Reversing `escape_html` (the reverse direction named by the spec's
roundtrip property): decode the five HTML entities the escaper emits,
pass every other byte through. -/
def unescapeHtml : List Nat → List Nat
  | [] => []
  | b :: t =>
    if b = 38 then
      match t with
      | 97 :: 109 :: 112 :: 59 :: r => 38 :: unescapeHtml r
      | 108 :: 116 :: 59 :: r => 60 :: unescapeHtml r
      | 103 :: 116 :: 59 :: r => 62 :: unescapeHtml r
      | 113 :: 117 :: 111 :: 116 :: 59 :: r => 34 :: unescapeHtml r
      | 35 :: 120 :: 50 :: 55 :: 59 :: r => 39 :: unescapeHtml r
      | r => 38 :: unescapeHtml r
    else b :: unescapeHtml t

/-- The regex match contract for the wasm highlighter's patterns: each of
the six patterns consumes at least one character and matches lie inside
the text. -/
def WFWMatches (text : List Nat) (w : WMatches) : Prop :=
  ∀ p ∈ w.persons ++ w.orgs ++ w.amounts ++ w.dates ++ w.locations ++ w.emails,
    p.1 < p.2 ∧ p.2 ≤ text.length

instance (text : List Nat) (w : WMatches) : Decidable (WFWMatches text w) := by
  unfold WFWMatches; infer_instance

/-! Sorting and greedy-selection lemmas for the highlighter. -/

theorem mem_insertByStart {x a : HSpan} {l : List HSpan} :
    a ∈ insertByStart x l ↔ a = x ∨ a ∈ l := by
  induction l with
  | nil => simp [insertByStart]
  | cons y ys ih =>
    simp only [insertByStart]
    split
    · simp [List.mem_cons]
    · simp only [List.mem_cons, ih]
      tauto

/-- Start-sortedness of a span list. -/
def SortedStart (l : List HSpan) : Prop :=
  l.Pairwise (fun a b => a.start ≤ b.start)

theorem insertByStart_sorted {x : HSpan} {l : List HSpan} (h : SortedStart l) :
    SortedStart (insertByStart x l) := by
  induction l with
  | nil => simp [insertByStart, SortedStart]
  | cons y ys ih =>
    rw [SortedStart, List.pairwise_cons] at h
    simp only [insertByStart]
    split
    · rename_i hxy
      refine List.Pairwise.cons ?_ (List.Pairwise.cons h.1 h.2)
      intro b hb
      rcases List.mem_cons.mp hb with hb | hb
      · exact hb ▸ hxy
      · exact le_trans hxy (h.1 b hb)
    · rename_i hxy
      refine List.Pairwise.cons ?_ (ih h.2)
      intro b hb
      rcases mem_insertByStart.mp hb with hb | hb
      · exact hb ▸ Nat.le_of_not_le hxy
      · exact h.1 b hb

theorem sortByStart_sorted (l : List HSpan) : SortedStart (sortByStart l) := by
  induction l with
  | nil => simp [sortByStart, SortedStart]
  | cons x xs ih => exact insertByStart_sorted ih

theorem mem_sortByStart {a : HSpan} {l : List HSpan} :
    a ∈ sortByStart l ↔ a ∈ l := by
  induction l with
  | nil => simp [sortByStart]
  | cons x xs ih => simp [sortByStart, mem_insertByStart, ih]

theorem greedyGo_spec (l : List HSpan) :
    ∀ c : Nat, SortedStart l → (∀ a ∈ l, a.start ≤ a.end_) →
      (greedyGo c l).Pairwise (fun a b => a.end_ ≤ b.start) ∧
        ∀ a ∈ greedyGo c l, c ≤ a.start ∧ a ∈ l := by
  induction l with
  | nil => intro c _ _; simp [greedyGo]
  | cons e rest ih =>
    intro c hs he
    rw [SortedStart, List.pairwise_cons] at hs
    have hrest := ih e.end_ hs.2 (fun a ha => he a (List.mem_cons_of_mem _ ha))
    have hrestc := ih c hs.2 (fun a ha => he a (List.mem_cons_of_mem _ ha))
    simp only [greedyGo]
    split
    · rename_i hce
      constructor
      · exact List.Pairwise.cons (fun b hb => (hrest.2 b hb).1) hrest.1
      · intro a ha
        rcases List.mem_cons.mp ha with ha | ha
        · exact ⟨ha ▸ hce, ha ▸ List.mem_cons_self e rest⟩
        · have h2 := hrest.2 a ha
          refine ⟨le_trans (le_trans hce (he e (List.mem_cons_self e rest))) h2.1,
            List.mem_cons_of_mem _ h2.2⟩
    · exact ⟨hrestc.1, fun a ha =>
        ⟨(hrestc.2 a ha).1, List.mem_cons_of_mem _ (hrestc.2 a ha).2⟩⟩

/-- The facts established by one raw-collection pass: every collected span
carries its slice as text, lies inside the text, and is tagged with one of
the six fixed class/type pairs. -/
theorem mem_collectAll {text : List Nat} {w : WMatches} (h : WFWMatches text w) :
    ∀ a ∈ collectAll text w, a.start < a.end_ ∧ a.end_ ≤ text.length ∧
      a.text = sliceB text a.start a.end_ ∧
      (a.cls, a.ty) ∈ ([("entity-person", "person"), ("entity-org", "organization"),
        ("entity-amount", "amount"), ("entity-date", "date"),
        ("entity-location", "location"), ("entity-email", "email")] :
        List (String × String)) := by
  intro a ha
  rw [WFWMatches] at h
  simp only [collectAll, tagSpans, List.mem_append, List.mem_map] at ha
  rcases ha with ((((ha | ha) | ha) | ha) | ha) | ha <;>
    obtain ⟨p, hp, rfl⟩ := ha <;>
    have hwf := h p (by simp [hp]) <;>
    simp [hwf.1, hwf.2]

/-- The accepted span list of `highlight_entities` is non-overlapping and
every accepted span is one of the collected raw spans. -/
theorem resolveOverlaps_spec {text : List Nat} {w : WMatches} (h : WFWMatches text w) :
    (resolveOverlaps (sortByStart (collectAll text w))).Pairwise
        (fun a b => a.end_ ≤ b.start) ∧
      ∀ a ∈ resolveOverlaps (sortByStart (collectAll text w)),
        a ∈ collectAll text w := by
  have hg := greedyGo_spec (sortByStart (collectAll text w)) 0
    (sortByStart_sorted _)
    (fun a ha => le_of_lt (mem_collectAll h a (mem_sortByStart.mp ha)).1)
  exact ⟨hg.1, fun a ha => mem_sortByStart.mp (hg.2 a ha).2⟩

/-! Escaping, tag stripping and the rendering roundtrip. -/

/-- Character-wise form of `escape_html` on one byte. -/
def escByte (b : Nat) : List Nat :=
  if b = 38 then asciiBytes "&amp;"
  else if b = 60 then asciiBytes "&lt;"
  else if b = 62 then asciiBytes "&gt;"
  else if b = 34 then asciiBytes "&quot;"
  else if b = 39 then asciiBytes "&#x27;"
  else [b]

theorem replaceByte_append (a : Nat) (rep s t : List Nat) :
    replaceByte a rep (s ++ t) = replaceByte a rep s ++ replaceByte a rep t := by
  induction s with
  | nil => simp [replaceByte]
  | cons x u ih => simp [replaceByte, ih, List.append_assoc]

theorem escape_html_cons (b : Nat) (s : List Nat) :
    escape_html (b :: s) = escByte b ++ escape_html s := by
  simp only [escape_html]
  rw [show replaceByte 38 (asciiBytes "&amp;") (b :: s) =
      (if b = 38 then asciiBytes "&amp;" else [b]) ++
        replaceByte 38 (asciiBytes "&amp;") s from rfl]
  rw [replaceByte_append, replaceByte_append, replaceByte_append, replaceByte_append]
  congr 1
  by_cases h1 : b = 38
  · subst h1; decide
  · by_cases h2 : b = 60
    · subst h2; decide
    · by_cases h3 : b = 62
      · subst h3; decide
      · by_cases h4 : b = 34
        · subst h4; decide
        · by_cases h5 : b = 39
          · subst h5; decide
          · simp [replaceByte, escByte, h1, h2, h3, h4, h5]

theorem escByte_no_angle (b : Nat) : ∀ x ∈ escByte b, x ≠ 60 ∧ x ≠ 62 := by
  by_cases h1 : b = 38
  · subst h1; decide
  · by_cases h2 : b = 60
    · subst h2; decide
    · by_cases h3 : b = 62
      · subst h3; decide
      · by_cases h4 : b = 34
        · subst h4; decide
        · by_cases h5 : b = 39
          · subst h5; decide
          · intro x hx
            simp [escByte, h1, h2, h3, h4, h5] at hx
            subst hx
            exact ⟨h2, h3⟩

theorem escape_no_angle (s : List Nat) : ∀ x ∈ escape_html s, x ≠ 60 ∧ x ≠ 62 := by
  induction s with
  | nil =>
    intro x hx
    rw [show escape_html [] = [] from rfl] at hx
    simp at hx
  | cons b t ih =>
    rw [escape_html_cons]
    intro x hx
    rcases List.mem_append.mp hx with hx | hx
    · exact escByte_no_angle b x hx
    · exact ih x hx

theorem stripTagsAux_false_append (s r : List Nat) (h : ∀ x ∈ s, x ≠ 60) :
    stripTagsAux false (s ++ r) = s ++ stripTagsAux false r := by
  induction s with
  | nil => simp
  | cons b t ih =>
    simp only [List.cons_append, stripTagsAux, List.append_eq]
    rw [if_neg (h b (List.mem_cons_self b t))]
    rw [ih (fun x hx => h x (List.mem_cons_of_mem b hx))]

theorem stripTagsAux_true_close (mid r : List Nat) (h : ∀ x ∈ mid, x ≠ 62) :
    stripTagsAux true (mid ++ 62 :: r) = stripTagsAux false r := by
  induction mid with
  | nil => simp [stripTagsAux]
  | cons b t ih =>
    simp only [List.cons_append, stripTagsAux, List.append_eq]
    rw [if_neg (h b (List.mem_cons_self b t))]
    exact ih (fun x hx => h x (List.mem_cons_of_mem b hx))

theorem stripTagsAux_tag (mid r : List Nat) (h : ∀ x ∈ mid, x ≠ 62) :
    stripTagsAux false ((60 :: (mid ++ [62])) ++ r) = stripTagsAux false r := by
  show stripTagsAux false (60 :: (mid ++ [62] ++ r)) = stripTagsAux false r
  simp only [stripTagsAux, if_pos]
  rw [List.append_assoc, List.singleton_append]
  exact stripTagsAux_true_close mid r h

theorem spanOpen_eq (cls ty : String) :
    spanOpen cls ty = 60 :: ((asciiBytes "span class=\"entity " ++ asciiBytes cls ++
      asciiBytes "\" data-type=\"" ++ asciiBytes ty ++ asciiBytes "\" title=\"" ++
      asciiBytes ty ++ asciiBytes "\"") ++ [62]) := by
  rw [spanOpen]
  rw [show asciiBytes "<span class=\"entity " =
      60 :: asciiBytes "span class=\"entity " from by decide]
  rw [show asciiBytes "\">" = (asciiBytes "\"") ++ [62] from by decide]
  simp [List.append_assoc]

theorem strip_spanOpen (cls ty : String) (r : List Nat)
    (hc : ∀ x ∈ asciiBytes cls, x ≠ 62) (ht : ∀ x ∈ asciiBytes ty, x ≠ 62) :
    stripTagsAux false (spanOpen cls ty ++ r) = stripTagsAux false r := by
  rw [spanOpen_eq]
  refine stripTagsAux_tag _ r ?_
  intro x hx
  simp only [List.mem_append] at hx
  rcases hx with ((((((hx | hx) | hx) | hx) | hx) | hx) | hx)
  · exact (by decide : ∀ y ∈ asciiBytes "span class=\"entity ", y ≠ 62) x hx
  · exact hc x hx
  · exact (by decide : ∀ y ∈ asciiBytes "\" data-type=\"", y ≠ 62) x hx
  · exact ht x hx
  · exact (by decide : ∀ y ∈ asciiBytes "\" title=\"", y ≠ 62) x hx
  · exact ht x hx
  · exact (by decide : ∀ y ∈ asciiBytes "\"", y ≠ 62) x hx

theorem strip_spanClose (r : List Nat) :
    stripTagsAux false (spanClose ++ r) = stripTagsAux false r := by
  rw [show spanClose = 60 :: ((asciiBytes "/span") ++ [62]) from by decide]
  exact stripTagsAux_tag _ r (by decide)

theorem unescapeHtml_cons_ne (b : Nat) (u : List Nat) (h : b ≠ 38) :
    unescapeHtml (b :: u) = b :: unescapeHtml u := by
  rw [unescapeHtml.eq_def]
  simp [h]

theorem unescape_escape_append (s r : List Nat) :
    unescapeHtml (escape_html s ++ r) = s ++ unescapeHtml r := by
  induction s with
  | nil => rw [show escape_html [] = [] from rfl, List.nil_append, List.nil_append]
  | cons b t ih =>
    rw [escape_html_cons, List.append_assoc]
    by_cases h1 : b = 38
    · subst h1
      rw [show escByte 38 = [38, 97, 109, 112, 59] from by decide]
      simp only [List.cons_append, List.nil_append]
      rw [show ∀ u, unescapeHtml (38 :: 97 :: 109 :: 112 :: 59 :: u) =
          38 :: unescapeHtml u from fun u => rfl]
      rw [ih]
    · by_cases h2 : b = 60
      · subst h2
        rw [show escByte 60 = [38, 108, 116, 59] from by decide]
        simp only [List.cons_append, List.nil_append]
        rw [show ∀ u, unescapeHtml (38 :: 108 :: 116 :: 59 :: u) =
            60 :: unescapeHtml u from fun u => rfl]
        rw [ih]
      · by_cases h3 : b = 62
        · subst h3
          rw [show escByte 62 = [38, 103, 116, 59] from by decide]
          simp only [List.cons_append, List.nil_append]
          rw [show ∀ u, unescapeHtml (38 :: 103 :: 116 :: 59 :: u) =
              62 :: unescapeHtml u from fun u => rfl]
          rw [ih]
        · by_cases h4 : b = 34
          · subst h4
            rw [show escByte 34 = [38, 113, 117, 111, 116, 59] from by decide]
            simp only [List.cons_append, List.nil_append]
            rw [show ∀ u, unescapeHtml (38 :: 113 :: 117 :: 111 :: 116 :: 59 :: u) =
                34 :: unescapeHtml u from fun u => rfl]
            rw [ih]
          · by_cases h5 : b = 39
            · subst h5
              rw [show escByte 39 = [38, 35, 120, 50, 55, 59] from by decide]
              simp only [List.cons_append, List.nil_append]
              rw [show ∀ u, unescapeHtml (38 :: 35 :: 120 :: 50 :: 55 :: 59 :: u) =
                  39 :: unescapeHtml u from fun u => rfl]
              rw [ih]
            · rw [show escByte b = [b] from by
                simp [escByte, h1, h2, h3, h4, h5]]
              simp only [List.cons_append, List.nil_append]
              rw [unescapeHtml_cons_ne b _ h1, ih]

theorem sliceB_glue (text : List Nat) {a b c : Nat} (hab : a ≤ b) (hbc : b ≤ c) :
    sliceB text a b ++ sliceB text b c = sliceB text a c := by
  unfold sliceB
  rw [show c - a = (b - a) + (c - b) from by omega, List.take_add]
  congr 2
  rw [List.drop_drop]
  congr 1
  omega

theorem sliceB_full (text : List Nat) : sliceB text 0 text.length = text := by
  simp [sliceB]

theorem strip_escape (s : List Nat) : stripTags (escape_html s) = escape_html s := by
  have h := stripTagsAux_false_append (escape_html s) []
    (fun x hx => (escape_no_angle _ x hx).1)
  rw [List.append_nil] at h
  rw [stripTags, h]
  rw [show stripTagsAux false [] = [] from rfl, List.append_nil]

theorem unescape_escape (s : List Nat) : unescapeHtml (escape_html s) = s := by
  have h := unescape_escape_append s []
  rw [List.append_nil] at h
  rw [h, show unescapeHtml [] = [] from rfl, List.append_nil]

/-- Per-span facts the rendering roundtrip needs: offsets are ordered and
in bounds, the stored text is the slice, and the tag attribute strings
contain no `>` byte. -/
def RenderOK (text : List Nat) (a : HSpan) : Prop :=
  a.start ≤ a.end_ ∧ a.end_ ≤ text.length ∧
    a.text = sliceB text a.start a.end_ ∧
    (∀ x ∈ asciiBytes a.cls, x ≠ 62) ∧ (∀ x ∈ asciiBytes a.ty, x ≠ 62)

theorem render_roundtrip (text : List Nat) (l : List HSpan) :
    ∀ lp : Nat, lp ≤ text.length → (∀ a ∈ l, lp ≤ a.start) →
      l.Pairwise (fun a b => a.end_ ≤ b.start) →
      (∀ a ∈ l, RenderOK text a) →
      unescapeHtml (stripTags (renderHtml text lp l)) = sliceB text lp text.length := by
  induction l with
  | nil =>
    intro lp _ _ _ _
    simp only [renderHtml]
    rw [strip_escape, unescape_escape]
  | cons s rest ih =>
    intro lp hlp hstart hpw hok
    obtain ⟨hse, hel, htx, hcls, hty⟩ := hok s (List.mem_cons_self s rest)
    have hlps : lp ≤ s.start := hstart s (List.mem_cons_self s rest)
    rw [List.pairwise_cons] at hpw
    simp only [renderHtml, stripTags]
    rw [List.append_assoc, List.append_assoc, List.append_assoc]
    rw [stripTagsAux_false_append _ _ (fun x hx => (escape_no_angle _ x hx).1)]
    rw [strip_spanOpen _ _ _ hcls hty]
    rw [stripTagsAux_false_append _ _ (fun x hx => (escape_no_angle _ x hx).1)]
    rw [strip_spanClose]
    rw [unescape_escape_append, unescape_escape_append]
    have hih := ih s.end_ hel (fun a ha => hpw.1 a ha) hpw.2
      (fun a ha => hok a (List.mem_cons_of_mem s ha))
    rw [stripTags] at hih
    rw [hih, htx, ← List.append_assoc]
    rw [sliceB_glue text hlps hse, sliceB_glue text (le_trans hlps hse) hel]

/-- The six class/type tag pairs of the highlighter contain no `>` byte. -/
theorem tagPairs_no_gt :
    ∀ p ∈ ([("entity-person", "person"), ("entity-org", "organization"),
        ("entity-amount", "amount"), ("entity-date", "date"),
        ("entity-location", "location"), ("entity-email", "email")] :
        List (String × String)),
      (∀ x ∈ asciiBytes p.1, x ≠ 62) ∧ (∀ x ∈ asciiBytes p.2, x ≠ 62) := by
  decide

/-- C1: for every input text and every set of raw matches satisfying the
regex match contract, the accepted span list of `highlight_entities` —
produced by stable-sorting all collected matches by start offset and
greedily accepting a match iff its start is at or after the cursor, the
cursor starting at 0 and advancing to each accepted match's end — is
sorted by start ascending and pairwise non-overlapping: every consecutive
(indeed every ordered) pair satisfies `a.end <= b.start`. -/
theorem highlight_accepted_sorted_nonoverlap (text : List Nat) (w : WMatches)
    (h : WFWMatches text w) :
    ((highlight_entities text w).entities).Pairwise
      (fun a b => a.end_ ≤ b.start ∧ a.start ≤ b.start) := by
  have hr := resolveOverlaps_spec h
  have hm := mem_collectAll h
  simp only [highlight_entities]
  rw [List.pairwise_map]
  refine List.Pairwise.imp_of_mem ?_ hr.1
  intro a b ha hb hab
  exact ⟨hab, le_trans (le_of_lt (hm a (hr.2 a ha)).1) hab⟩

/-- Witness for C1 at the text `Bob Smith Inc`, whose person match
`Bob Smith` (0..9) overlaps the organization match `Bob Smith Inc`
(0..13). -/
theorem highlight_accepted_sorted_nonoverlap_witness :
    WFWMatches (asciiBytes "Bob Smith Inc") ⟨[(0, 9)], [(0, 13)], [], [], [], []⟩ ∧
      ((highlight_entities (asciiBytes "Bob Smith Inc")
          ⟨[(0, 9)], [(0, 13)], [], [], [], []⟩).entities).Pairwise
        (fun a b => a.end_ ≤ b.start ∧ a.start ≤ b.start) :=
  ⟨by decide, highlight_accepted_sorted_nonoverlap _ _ (by decide)⟩

/-- C5: for every input text and every set of raw matches satisfying the
regex match contract, stripping the inline marker tags from the markup
rendered by `highlight_entities` and reversing the HTML escaping of
`& < > " '` exactly reconstructs the original text (the literal segments
between accepted spans and the accepted matched texts are emitted
HTML-escaped, in order, which is what the rendering model interleaves). -/
theorem highlight_markup_roundtrip (text : List Nat) (w : WMatches)
    (h : WFWMatches text w) :
    unescapeHtml (stripTags ((highlight_entities text w).html)) = text := by
  have hr := resolveOverlaps_spec h
  have hm := mem_collectAll h
  have hfacts : ∀ a ∈ resolveOverlaps (sortByStart (collectAll text w)),
      RenderOK text a := by
    intro a ha
    have hc := hm a (hr.2 a ha)
    have htag := tagPairs_no_gt _ hc.2.2.2
    exact ⟨le_of_lt hc.1, hc.2.1, hc.2.2.1, htag.1, htag.2⟩
  simp only [highlight_entities]
  rw [render_roundtrip text _ 0 (Nat.zero_le _) (fun a _ => Nat.zero_le _) hr.1 hfacts,
    sliceB_full]

/-- Witness for C5 at a text containing every escaped character and an
email match. -/
theorem highlight_markup_roundtrip_witness :
    WFWMatches (asciiBytes "<a&b> a@b.co '\"") ⟨[], [], [], [], [], [(6, 12)]⟩ ∧
      unescapeHtml (stripTags ((highlight_entities (asciiBytes "<a&b> a@b.co '\"")
          ⟨[], [], [], [], [], [(6, 12)]⟩).html)) = asciiBytes "<a&b> a@b.co '\"" :=
  ⟨by decide, highlight_markup_roundtrip _ _ (by decide)⟩

/-! Invariants of the rust-extract pattern scan. -/

theorem mem_concatMap {f : α → List β} {b : β} :
    ∀ {l : List α}, b ∈ concatMap f l ↔ ∃ a ∈ l, b ∈ f a := by
  intro l
  induction l with
  | nil => simp [concatMap]
  | cons x t ih => simp [concatMap, ih]

/-- The per-entity offset/substring invariant of the spec. -/
def EntityOK (text : List Nat) (e : Entity) : Prop :=
  e.start < e.end_ ∧ e.end_ ≤ text.length ∧ e.value = sliceB text e.start e.end_

instance (text : List Nat) (e : Entity) : Decidable (EntityOK text e) := by
  unfold EntityOK; infer_instance

theorem ewpGo_entityOK (text : List Nat) (ty : String) (conf : Rat) :
    ∀ (ms : List (Nat × Nat)) (seen : List (List Nat)) (l : List Entity),
      (∀ p ∈ ms, p.1 < p.2 ∧ p.2 ≤ text.length) →
      ewpGo text ty conf ms seen = some l →
      ∀ e ∈ l, EntityOK text e := by
  intro ms
  induction ms with
  | nil =>
    intro seen l _ h e he
    rw [ewpGo] at h
    cases h
    simp at he
  | cons p rest ih =>
    obtain ⟨s0, e0⟩ := p
    intro seen l hm h e he
    rw [ewpGo] at h
    by_cases hseen : lowercaseBytes (sliceB text s0 e0) ∈ seen
    · rw [if_pos hseen] at h
      exact ih seen l (fun q hq => hm q (List.mem_cons_of_mem _ hq)) h e he
    · rw [if_neg hseen] at h
      rcases hctx : sliceChecked text (s0 - 50) (min (e0 + 50) text.length) with _ | ctx
      · rw [hctx] at h; cases h
      · rw [hctx, Option.some_bind, Option.map_eq_some'] at h
        obtain ⟨tail, htail, rfl⟩ := h
        rcases List.mem_cons.mp he with rfl | he
        · have hp := hm (s0, e0) (List.mem_cons_self _ _)
          exact ⟨hp.1, hp.2, rfl⟩
        · exact ih _ tail (fun q hq => hm q (List.mem_cons_of_mem _ hq)) htail e he

/-- No two entities of one pattern-scan output share a lowercased value. -/
def LowerDistinct (l : List Entity) : Prop :=
  l.Pairwise (fun a b => lowercaseBytes a.value ≠ lowercaseBytes b.value)

theorem ewpGo_distinct (text : List Nat) (ty : String) (conf : Rat) :
    ∀ (ms : List (Nat × Nat)) (seen : List (List Nat)) (l : List Entity),
      ewpGo text ty conf ms seen = some l →
      LowerDistinct l ∧ ∀ e ∈ l, lowercaseBytes e.value ∉ seen := by
  intro ms
  induction ms with
  | nil =>
    intro seen l h
    rw [ewpGo] at h
    cases h
    simp [LowerDistinct]
  | cons p rest ih =>
    obtain ⟨s0, e0⟩ := p
    intro seen l h
    rw [ewpGo] at h
    by_cases hseen : lowercaseBytes (sliceB text s0 e0) ∈ seen
    · rw [if_pos hseen] at h
      exact ih seen l h
    · rw [if_neg hseen] at h
      rcases hctx : sliceChecked text (s0 - 50) (min (e0 + 50) text.length) with _ | ctx
      · rw [hctx] at h; cases h
      · rw [hctx, Option.some_bind, Option.map_eq_some'] at h
        obtain ⟨tail, htail, rfl⟩ := h
        have htl := ih _ tail htail
        constructor
        · refine List.Pairwise.cons ?_ htl.1
          intro b hb
          have := htl.2 b hb
          simp only [List.mem_cons, not_or] at this
          exact fun hv => this.1 hv.symm
        · intro e he
          rcases List.mem_cons.mp he with rfl | he
          · exact hseen
          · have := htl.2 e he
            simp only [List.mem_cons, not_or] at this
            exact this.2


/-! Lifting the scan invariants through the category extractors. -/

theorem extract_with_patterns_entityOK {text : List Nat} {pm : List (List (Nat × Nat))}
    {ty : String} {conf : Rat} {l : List Entity}
    (hwf : ∀ p ∈ concatMap id pm, p.1 < p.2 ∧ p.2 ≤ text.length)
    (h : extract_with_patterns text pm ty conf = some l) :
    ∀ e ∈ l, EntityOK text e :=
  ewpGo_entityOK text ty conf (concatMap id pm) [] l hwf h

theorem extract_with_patterns_distinct {text : List Nat} {pm : List (List (Nat × Nat))}
    {ty : String} {conf : Rat} {l : List Entity}
    (h : extract_with_patterns text pm ty conf = some l) :
    LowerDistinct l :=
  (ewpGo_distinct text ty conf (concatMap id pm) [] l h).1

theorem extract_persons_inv {text : List Nat} {pm : List (List (Nat × Nat))}
    {l : List Entity} (h : extract_persons text pm = some l) :
    ∃ l0, extract_with_patterns text pm "person" (75 / 100) = some l0 ∧
      l = l0.filter (fun e =>
        !(personBlacklist.any (fun b => containsSeq b (lowercaseBytes e.value)))) := by
  rw [extract_persons, Option.map_eq_some'] at h
  obtain ⟨l0, h0, rfl⟩ := h
  exact ⟨l0, h0, rfl⟩

theorem extract_organizations_inv {text : List Nat} {pm : List (List (Nat × Nat))}
    {l : List Entity} (h : extract_organizations text pm = some l) :
    ∃ l0, extract_with_patterns text pm "organization" (80 / 100) = some l0 ∧
      l = l0.filter (fun e =>
        if e.value.length ≤ 3 then knownAcronyms.contains e.value else true) := by
  rw [extract_organizations, Option.map_eq_some'] at h
  obtain ⟨l0, h0, rfl⟩ := h
  exact ⟨l0, h0, rfl⟩

theorem extract_amounts_inv {text : List Nat} {pm : List (List (Nat × Nat))}
    {l : List Entity} (h : extract_amounts text pm = some l) :
    ∃ l0, extract_with_patterns text pm "amount" (90 / 100) = some l0 ∧
      l = l0.map (fun e =>
        { e with metadata := some [("normalized", normalizeAmount e.value)] }) := by
  rw [extract_amounts, Option.map_eq_some'] at h
  obtain ⟨l0, h0, rfl⟩ := h
  exact ⟨l0, h0, rfl⟩

theorem extract_dates_entityOK {text : List Nat} {pm : List (List (Nat × Nat))}
    {l : List Entity}
    (hwf : ∀ p ∈ concatMap id pm, p.1 < p.2 ∧ p.2 ≤ text.length)
    (h : extract_dates text pm = some l) : ∀ e ∈ l, EntityOK text e :=
  extract_with_patterns_entityOK hwf h

theorem extract_persons_entityOK {text : List Nat} {pm : List (List (Nat × Nat))}
    {l : List Entity}
    (hwf : ∀ p ∈ concatMap id pm, p.1 < p.2 ∧ p.2 ≤ text.length)
    (h : extract_persons text pm = some l) : ∀ e ∈ l, EntityOK text e := by
  obtain ⟨l0, h0, rfl⟩ := extract_persons_inv h
  intro e he
  exact extract_with_patterns_entityOK hwf h0 e (List.mem_of_mem_filter he)

theorem extract_organizations_entityOK {text : List Nat} {pm : List (List (Nat × Nat))}
    {l : List Entity}
    (hwf : ∀ p ∈ concatMap id pm, p.1 < p.2 ∧ p.2 ≤ text.length)
    (h : extract_organizations text pm = some l) : ∀ e ∈ l, EntityOK text e := by
  obtain ⟨l0, h0, rfl⟩ := extract_organizations_inv h
  intro e he
  exact extract_with_patterns_entityOK hwf h0 e (List.mem_of_mem_filter he)

theorem extract_amounts_entityOK {text : List Nat} {pm : List (List (Nat × Nat))}
    {l : List Entity}
    (hwf : ∀ p ∈ concatMap id pm, p.1 < p.2 ∧ p.2 ≤ text.length)
    (h : extract_amounts text pm = some l) : ∀ e ∈ l, EntityOK text e := by
  obtain ⟨l0, h0, rfl⟩ := extract_amounts_inv h
  intro e he
  rw [List.mem_map] at he
  obtain ⟨e0, he0, rfl⟩ := he
  exact extract_with_patterns_entityOK hwf h0 e0 he0

theorem extract_simple_entityOK {text : List Nat} {ms : List (Nat × Nat)}
    {ty : String} {conf : Rat}
    (hwf : ∀ p ∈ ms, p.1 < p.2 ∧ p.2 ≤ text.length) :
    ∀ e ∈ extract_simple text ms ty conf, EntityOK text e := by
  intro e he
  rw [extract_simple, List.mem_map] at he
  obtain ⟨p, hp, rfl⟩ := he
  exact ⟨(hwf p hp).1, (hwf p hp).2, rfl⟩

/-- Inversion of a successful `extract_all_lists` call. -/
theorem extract_all_lists_inv {text : List Nat} {m : Matches} {r : ExtractionResult}
    (h : extract_all_lists text m = some r) :
    ∃ d p o a lo,
      extract_dates text m.dates = some d ∧
      extract_persons text m.persons = some p ∧
      extract_organizations text m.orgs = some o ∧
      extract_amounts text m.amounts = some a ∧
      extract_locations text m.locations = some lo ∧
      r = { dates := d, persons := p, organizations := o, amounts := a,
            locations := lo, emails := extract_emails text m.emails,
            phones := extract_phones text m.phones,
            urls := extract_urls text m.urls,
            total_count := d.length + p.length + o.length + a.length +
              lo.length + (extract_emails text m.emails).length +
              (extract_phones text m.phones).length +
              (extract_urls text m.urls).length,
            processing_time_ms := 0 } := by
  simp only [extract_all_lists, Option.bind_eq_some, Option.pure_def,
    Option.some.injEq, bind] at h
  obtain ⟨d, hd, p, hp, o, ho, a, ha, lo, hlo, hr⟩ := h
  exact ⟨d, p, o, a, lo, hd, hp, ho, ha, hlo, hr.symm⟩

/-- Pointwise inversion of a successful `extract_batch` call: one result per
document, positionally aligned, each equal to the document's own
`extract_all`. -/
theorem extract_batch_zip :
    ∀ (docs : List BatchDoc) (rs : List ExtractionResult),
      extract_batch docs = some rs →
      rs.length = docs.length ∧
        ∀ dr ∈ docs.zip rs, extract_all dr.1.1 dr.1.2.1 dr.1.2.2 = some dr.2 := by
  intro docs
  induction docs with
  | nil =>
    intro rs h
    rw [extract_batch] at h
    cases h
    simp
  | cons d rest ih =>
    intro rs h
    rw [extract_batch] at h
    rcases h1 : extract_all d.1 d.2.1 d.2.2 with _ | r <;> rw [h1] at h
    · cases h
    · rw [Option.some_bind, Option.map_eq_some'] at h
      obtain ⟨rs', h2, rfl⟩ := h
      have hih := ih rs' h2
      refine ⟨by simp [hih.1], ?_⟩
      intro dr hdr
      rw [List.zip_cons_cons, List.mem_cons] at hdr
      rcases hdr with rfl | hdr
      · exact h1
      · exact hih.2 dr hdr


/-- All entity lists of a result, in field order. -/
def allEntities (r : ExtractionResult) : List Entity :=
  r.dates ++ r.persons ++ r.organizations ++ r.amounts ++ r.locations ++
    r.emails ++ r.phones ++ r.urls

theorem wfm_split {text : List Nat} {m : Matches} (hwf : WFMatches text m) :
    (∀ p ∈ concatMap id m.dates, p.1 < p.2 ∧ p.2 ≤ text.length) ∧
    (∀ p ∈ concatMap id m.persons, p.1 < p.2 ∧ p.2 ≤ text.length) ∧
    (∀ p ∈ concatMap id m.orgs, p.1 < p.2 ∧ p.2 ≤ text.length) ∧
    (∀ p ∈ concatMap id m.amounts, p.1 < p.2 ∧ p.2 ≤ text.length) ∧
    (∀ p ∈ concatMap id m.locations, p.1 < p.2 ∧ p.2 ≤ text.length) ∧
    (∀ p ∈ m.emails, p.1 < p.2 ∧ p.2 ≤ text.length) ∧
    (∀ p ∈ m.phones, p.1 < p.2 ∧ p.2 ≤ text.length) ∧
    (∀ p ∈ m.urls, p.1 < p.2 ∧ p.2 ≤ text.length) := by
  refine ⟨?_, ?_, ?_, ?_, ?_, ?_, ?_, ?_⟩ <;> intro p hp <;> refine hwf p ?_ <;>
    simp only [Matches.allPairs, List.mem_append] <;> tauto

/-- Every entity of a successful `extract_all` satisfies the offset and
substring invariant. -/
theorem extract_all_entityOK {text : List Nat} {m : Matches} {elapsed : Nat}
    {r : ExtractionResult} (hwf : WFMatches text m)
    (h : extract_all text m elapsed = some r) :
    ∀ e ∈ allEntities r, EntityOK text e := by
  rw [extract_all, Option.map_eq_some'] at h
  obtain ⟨r0, h0, rfl⟩ := h
  obtain ⟨d, p, o, a, lo, hd, hp, ho, ha, hlo, rfl⟩ := extract_all_lists_inv h0
  obtain ⟨w1, w2, w3, w4, w5, w6, w7, w8⟩ := wfm_split hwf
  intro e he
  simp only [allEntities, List.mem_append] at he
  rcases he with ((((((he | he) | he) | he) | he) | he) | he) | he
  · exact extract_dates_entityOK w1 hd e he
  · exact extract_persons_entityOK w2 hp e he
  · exact extract_organizations_entityOK w3 ho e he
  · exact extract_amounts_entityOK w4 ha e he
  · exact extract_with_patterns_entityOK w5 hlo e he
  · exact extract_simple_entityOK w6 e he
  · exact extract_simple_entityOK w7 e he
  · exact extract_simple_entityOK w8 e he

theorem gated_inv {c : Bool} {x : Option (List Entity)} {d : List Entity}
    (h : gated c x = some d) : (c = true ∧ x = some d) ∨ (c = false ∧ d = []) := by
  cases c
  · right
    rw [gated] at h
    simp only [Bool.false_eq_true, if_false, Option.pure_def, Option.some.injEq] at h
    exact ⟨rfl, h.symm⟩
  · left
    rw [gated] at h
    simp only [if_true] at h
    exact ⟨rfl, h⟩

/-- Inversion of a successful `extract_types_lists` call: every category
list is its extractor's output when requested and empty otherwise, and the
total count is the sum of the eight list lengths. -/
theorem extract_types_lists_inv {text : List Nat} {tys : List String} {m : Matches}
    {r : ExtractionResult} (h : extract_types_lists text tys m = some r) :
    (if tys.contains "dates" then extract_dates text m.dates = some r.dates
      else r.dates = []) ∧
    (if tys.contains "persons" then extract_persons text m.persons = some r.persons
      else r.persons = []) ∧
    (if tys.contains "organizations" || tys.contains "orgs" then
        extract_organizations text m.orgs = some r.organizations
      else r.organizations = []) ∧
    (if tys.contains "amounts" then extract_amounts text m.amounts = some r.amounts
      else r.amounts = []) ∧
    (if tys.contains "locations" then extract_locations text m.locations = some r.locations
      else r.locations = []) ∧
    (r.emails = if tys.contains "emails" then extract_emails text m.emails else []) ∧
    (r.phones = if tys.contains "phones" then extract_phones text m.phones else []) ∧
    (r.urls = if tys.contains "urls" then extract_urls text m.urls else []) ∧
    r.total_count = r.dates.length + r.persons.length + r.organizations.length +
      r.amounts.length + r.locations.length + r.emails.length + r.phones.length +
      r.urls.length ∧
    r.processing_time_ms = 0 := by
  simp only [extract_types_lists, Option.bind_eq_some, Option.pure_def,
    Option.some.injEq, bind] at h
  obtain ⟨d, hd, p, hp, o, ho, a, ha, lo, hlo, hr⟩ := h
  subst hr
  refine ⟨?_, ?_, ?_, ?_, ?_, rfl, rfl, rfl, rfl, rfl⟩
  · rcases gated_inv hd with ⟨hc, hx⟩ | ⟨hc, hx⟩
    · rw [if_pos hc]; exact hx
    · rw [if_neg (by rw [hc]; exact Bool.false_ne_true)]; exact hx
  · rcases gated_inv hp with ⟨hc, hx⟩ | ⟨hc, hx⟩
    · rw [if_pos hc]; exact hx
    · rw [if_neg (by rw [hc]; exact Bool.false_ne_true)]; exact hx
  · rcases gated_inv ho with ⟨hc, hx⟩ | ⟨hc, hx⟩
    · rw [if_pos hc]; exact hx
    · rw [if_neg (by rw [hc]; exact Bool.false_ne_true)]; exact hx
  · rcases gated_inv ha with ⟨hc, hx⟩ | ⟨hc, hx⟩
    · rw [if_pos hc]; exact hx
    · rw [if_neg (by rw [hc]; exact Bool.false_ne_true)]; exact hx
  · rcases gated_inv hlo with ⟨hc, hx⟩ | ⟨hc, hx⟩
    · rw [if_pos hc]; exact hx
    · rw [if_neg (by rw [hc]; exact Bool.false_ne_true)]; exact hx

/-- Every entity of a successful `extract_types` satisfies the offset and
substring invariant. -/
theorem extract_types_entityOK {text : List Nat} {tys : List String} {m : Matches}
    {elapsed : Nat} {r : ExtractionResult} (hwf : WFMatches text m)
    (h : extract_types text tys m elapsed = some r) :
    ∀ e ∈ allEntities r, EntityOK text e := by
  rw [extract_types, Option.map_eq_some'] at h
  obtain ⟨r0, h0, rfl⟩ := h
  obtain ⟨h1, h2, h3, h4, h5, h6, h7, h8, _, _⟩ := extract_types_lists_inv h0
  obtain ⟨w1, w2, w3, w4, w5, w6, w7, w8⟩ := wfm_split hwf
  intro e he
  simp only [allEntities, List.mem_append] at he
  rcases he with ((((((he | he) | he) | he) | he) | he) | he) | he
  · by_cases hc : tys.contains "dates"
    · rw [if_pos hc] at h1; exact extract_dates_entityOK w1 h1 e he
    · rw [if_neg hc] at h1; rw [h1] at he; cases he
  · by_cases hc : tys.contains "persons"
    · rw [if_pos hc] at h2; exact extract_persons_entityOK w2 h2 e he
    · rw [if_neg hc] at h2; rw [h2] at he; cases he
  · by_cases hc : (tys.contains "organizations" || tys.contains "orgs" : Bool)
    · rw [if_pos hc] at h3; exact extract_organizations_entityOK w3 h3 e he
    · rw [if_neg hc] at h3; rw [h3] at he; cases he
  · by_cases hc : tys.contains "amounts"
    · rw [if_pos hc] at h4; exact extract_amounts_entityOK w4 h4 e he
    · rw [if_neg hc] at h4; rw [h4] at he; cases he
  · by_cases hc : tys.contains "locations"
    · rw [if_pos hc] at h5; exact extract_with_patterns_entityOK w5 h5 e he
    · rw [if_neg hc] at h5; rw [h5] at he; cases he
  · rw [h6] at he
    by_cases hc : tys.contains "emails"
    · rw [if_pos hc] at he; exact extract_simple_entityOK w6 e he
    · rw [if_neg hc] at he; cases he
  · rw [h7] at he
    by_cases hc : tys.contains "phones"
    · rw [if_pos hc] at he; exact extract_simple_entityOK w7 e he
    · rw [if_neg hc] at he; cases he
  · rw [h8] at he
    by_cases hc : tys.contains "urls"
    · rw [if_pos hc] at he; exact extract_simple_entityOK w8 e he
    · rw [if_neg hc] at he; cases he


/-! Dedup facts per operation. -/

/-- The five pattern-scan category lists carry no duplicate lowercased
values. -/
def DedupOK (r : ExtractionResult) : Prop :=
  LowerDistinct r.dates ∧ LowerDistinct r.persons ∧ LowerDistinct r.organizations ∧
    LowerDistinct r.amounts ∧ LowerDistinct r.locations

theorem extract_all_dedup {text : List Nat} {m : Matches} {elapsed : Nat}
    {r : ExtractionResult} (h : extract_all text m elapsed = some r) : DedupOK r := by
  rw [extract_all, Option.map_eq_some'] at h
  obtain ⟨r0, h0, rfl⟩ := h
  obtain ⟨d, p, o, a, lo, hd, hp, ho, ha, hlo, rfl⟩ := extract_all_lists_inv h0
  refine ⟨extract_with_patterns_distinct hd, ?_, ?_, ?_,
    extract_with_patterns_distinct hlo⟩
  · obtain ⟨l0, h0', rfl⟩ := extract_persons_inv hp
    exact (extract_with_patterns_distinct h0').filter _
  · obtain ⟨l0, h0', rfl⟩ := extract_organizations_inv ho
    exact (extract_with_patterns_distinct h0').filter _
  · obtain ⟨l0, h0', rfl⟩ := extract_amounts_inv ha
    have hdist := extract_with_patterns_distinct h0'
    rw [LowerDistinct, List.pairwise_map]
    exact hdist

theorem extract_types_dedup {text : List Nat} {tys : List String} {m : Matches}
    {elapsed : Nat} {r : ExtractionResult}
    (h : extract_types text tys m elapsed = some r) : DedupOK r := by
  rw [extract_types, Option.map_eq_some'] at h
  obtain ⟨r0, h0, rfl⟩ := h
  obtain ⟨h1, h2, h3, h4, h5, _, _, _, _, _⟩ := extract_types_lists_inv h0
  refine ⟨?_, ?_, ?_, ?_, ?_⟩
  · by_cases hc : tys.contains "dates"
    · rw [if_pos hc] at h1; exact extract_with_patterns_distinct h1
    · rw [if_neg hc] at h1; rw [LowerDistinct, h1]; exact List.Pairwise.nil
  · by_cases hc : tys.contains "persons"
    · rw [if_pos hc] at h2
      obtain ⟨l0, h0', he⟩ := extract_persons_inv h2
      rw [LowerDistinct, he]
      exact (extract_with_patterns_distinct h0').filter _
    · rw [if_neg hc] at h2; rw [LowerDistinct, h2]; exact List.Pairwise.nil
  · by_cases hc : (tys.contains "organizations" || tys.contains "orgs" : Bool)
    · rw [if_pos hc] at h3
      obtain ⟨l0, h0', he⟩ := extract_organizations_inv h3
      rw [LowerDistinct, he]
      exact (extract_with_patterns_distinct h0').filter _
    · rw [if_neg hc] at h3; rw [LowerDistinct, h3]; exact List.Pairwise.nil
  · by_cases hc : tys.contains "amounts"
    · rw [if_pos hc] at h4
      obtain ⟨l0, h0', he⟩ := extract_amounts_inv h4
      rw [LowerDistinct, he, List.pairwise_map]
      exact extract_with_patterns_distinct h0'
    · rw [if_neg hc] at h4; rw [LowerDistinct, h4]; exact List.Pairwise.nil
  · by_cases hc : tys.contains "locations"
    · rw [if_pos hc] at h5; exact extract_with_patterns_distinct h5
    · rw [if_neg hc] at h5; rw [LowerDistinct, h5]; exact List.Pairwise.nil

/-! Concrete inputs used by witnesses and counterexamples.  Each `Matches`
bundle below records exactly the matches the repository's regexes produce
on the given text (one inner list per rule, in rule-declaration order);
a reviewer can re-trace each pattern on the text by hand. -/

/-- The match bundle for a text on which no rust-extract pattern matches
(five date rules, three person rules, three organization rules, four amount
rules, three location rules, and the single email/phone/url rules). -/
def emptyMatches : Matches :=
  ⟨[[], [], [], [], []], [[], [], []], [[], [], []], [[], [], [], []],
    [[], [], []], [], [], []⟩

/-- Text `a@b.co` (6 bytes): only the email rule matches, at `0..6`. -/
def tEmail : List Nat := asciiBytes "a@b.co"

/-- Matches of the rust-extract rules on `tEmail`. -/
def mEmail : Matches := { emptyMatches with emails := [(0, 6)] }

/-- The `extract_all` result on `tEmail` with elapsed time 0. -/
def rEmail : ExtractionResult :=
  ⟨[], [], [], [], [],
    [⟨asciiBytes "a@b.co", "email", 0, 6, 95 / 100, none, none⟩], [], [], 1, 0⟩

/-- Text `a@b.co a@b.co` (13 bytes): the email rule matches twice, at
`0..6` and `7..13`; no other rule matches. -/
def tEmailDup : List Nat := asciiBytes "a@b.co a@b.co"

/-- Matches of the rust-extract rules on `tEmailDup`. -/
def mEmailDup : Matches := { emptyMatches with emails := [(0, 6), (7, 13)] }

/-- C2: for every input text, every set of raw matches satisfying the regex
match contract, and every entity in any category list of a successful
`extract_all`, `extract_types` or `extract_batch` call, the offsets satisfy
`0 <= start < end <= length text` (the lower bound is inherent to `Nat`)
and the slice `text[start..end]` equals the entity's value. -/
theorem extraction_offsets_exact :
    (∀ (text : List Nat) (m : Matches) (elapsed : Nat) (r : ExtractionResult),
        WFMatches text m → extract_all text m elapsed = some r →
        ∀ e ∈ allEntities r, EntityOK text e) ∧
    (∀ (text : List Nat) (tys : List String) (m : Matches) (elapsed : Nat)
        (r : ExtractionResult),
        WFMatches text m → extract_types text tys m elapsed = some r →
        ∀ e ∈ allEntities r, EntityOK text e) ∧
    (∀ (docs : List BatchDoc) (rs : List ExtractionResult),
        (∀ d ∈ docs, WFMatches d.1 d.2.1) → extract_batch docs = some rs →
        ∀ dr ∈ docs.zip rs, ∀ e ∈ allEntities dr.2, EntityOK dr.1.1 e) := by
  refine ⟨fun text m elapsed r hwf h => extract_all_entityOK hwf h,
    fun text tys m elapsed r hwf h => extract_types_entityOK hwf h, ?_⟩
  intro docs rs hwf h dr hdr
  obtain ⟨dd, rr⟩ := dr
  have hz := (extract_batch_zip docs rs h).2 _ hdr
  exact extract_all_entityOK (hwf dd (List.of_mem_zip hdr).1) hz

/-- Witness for C2: on `tEmail` the single returned email entity has exact
offsets and value. -/
theorem extraction_offsets_exact_witness :
    WFMatches tEmail mEmail ∧ extract_all tEmail mEmail 0 = some rEmail ∧
      EntityOK tEmail ⟨asciiBytes "a@b.co", "email", 0, 6, 95 / 100, none, none⟩ :=
  ⟨by decide, by with_unfolding_all rfl,
    extraction_offsets_exact.1 tEmail mEmail 0 rEmail (by decide)
      (by with_unfolding_all rfl) _ (by simp [allEntities, rEmail])⟩

/-- C3 counterexample: on `a@b.co a@b.co` the email category of
`extract_all` returns two entities with the same lowercase value
`a@b.co` (at starts 0 and 7) — the email list is a plain `find_iter` map
with no dedup, so the claim's "every one of the eight categories" fails
for emails (and likewise phones and urls). -/
theorem category_dedup_counterexample :
    WFMatches tEmailDup mEmailDup ∧
      (extract_all tEmailDup mEmailDup 0).map
          (fun r => r.emails.map (fun e => lowercaseBytes e.value)) =
        some [asciiBytes "a@b.co", asciiBytes "a@b.co"] ∧
      (extract_all tEmailDup mEmailDup 0).map (fun r => r.emails.map (fun e => e.start)) =
        some [0, 7] :=
  ⟨by decide, by with_unfolding_all rfl, by with_unfolding_all rfl⟩

/-- C3 (amended): in every successful `extract_all`, `extract_types` or
`extract_batch` result, the five pattern-scan categories (dates, persons,
organizations, amounts, locations) contain no two entities sharing a
lowercase value — the first match in rule-declaration-then-scan order wins
and survivors keep first-occurrence order, which is how the scan emits
them; the email, phone and url lists are returned raw, with no dedup. -/
theorem category_dedup_pattern_categories :
    (∀ (text : List Nat) (m : Matches) (elapsed : Nat) (r : ExtractionResult),
        extract_all text m elapsed = some r → DedupOK r) ∧
    (∀ (text : List Nat) (tys : List String) (m : Matches) (elapsed : Nat)
        (r : ExtractionResult),
        extract_types text tys m elapsed = some r → DedupOK r) ∧
    (∀ (docs : List BatchDoc) (rs : List ExtractionResult),
        extract_batch docs = some rs → ∀ r ∈ rs, DedupOK r) := by
  refine ⟨fun text m elapsed r h => extract_all_dedup h,
    fun text tys m elapsed r h => extract_types_dedup h, ?_⟩
  intro docs
  induction docs with
  | nil =>
    intro rs h r hr
    rw [extract_batch] at h
    cases h
    cases hr
  | cons d rest ih =>
    intro rs h r hr
    rw [extract_batch] at h
    rcases h1 : extract_all d.1 d.2.1 d.2.2 with _ | r0 <;> rw [h1] at h
    · cases h
    · rw [Option.some_bind, Option.map_eq_some'] at h
      obtain ⟨rs', h2, rfl⟩ := h
      rcases List.mem_cons.mp hr with rfl | hr
      · exact extract_all_dedup h1
      · exact ih rs' h2 r hr

/-- Witness for C3 (amended) on `tEmailDup`. -/
theorem category_dedup_pattern_categories_witness :
    DedupOK ((extract_all tEmailDup mEmailDup 0).getD
      ⟨[], [], [], [], [], [], [], [], 0, 0⟩) :=
  category_dedup_pattern_categories.1 tEmailDup mEmailDup 0 _
    (by with_unfolding_all rfl)


/-! Claim C4: amount normalization. -/

/-- Text `$2 B` (4 bytes).  Amount rule 1 matches `$2` at `0..2`; amount
rule 3 (`currency, number, scale word`, whose scale alternation includes
the bare letters `M`, `B`, `K`) matches `$2 B` at `0..4`; no other
rust-extract rule matches. -/
def tAmountB : List Nat := asciiBytes "$2 B"

/-- Matches of the rust-extract rules on `tAmountB`. -/
def mAmountB : Matches := { emptyMatches with amounts := [[(0, 2)], [], [(0, 4)], []] }

/-- The spec's amount example text (57 bytes).  Amount rule 1 matches `$5`
at `20..22` and `$100,000` at `49..57`; amount rule 3 matches
`$5.5 million` at `20..32`; amount rule 4 matches `5.5 million USD` at
`21..36`; organization rule 3 (bare acronyms) matches `USD` at `33..36`
(discarded by the short-acronym filter); no other rule matches. -/
def tAmountEx : List Nat :=
  asciiBytes "The transaction was $5.5 million USD and another $100,000"

/-- Matches of the rust-extract rules on `tAmountEx`. -/
def mAmountEx : Matches :=
  { emptyMatches with
    orgs := [[], [], [(33, 36)]],
    amounts := [[(20, 22), (49, 57)], [], [(20, 32)], [(21, 36)]] }

/-- The `extract_all` result on `tAmountEx` with elapsed time 0: every
amount match starts within 50 bytes of the text ends, so each context
snippet is the whole text. -/
def rAmountEx : ExtractionResult :=
  ⟨[], [], [],
    [⟨asciiBytes "$5", "amount", 20, 22, 90 / 100, some tAmountEx,
        some [("normalized", 5)]⟩,
      ⟨asciiBytes "$100,000", "amount", 49, 57, 90 / 100, some tAmountEx,
        some [("normalized", 100000)]⟩,
      ⟨asciiBytes "$5.5 million", "amount", 20, 32, 90 / 100, some tAmountEx,
        some [("normalized", 5500000)]⟩,
      ⟨asciiBytes "5.5 million USD", "amount", 21, 36, 90 / 100, some tAmountEx,
        some [("normalized", 5500000)]⟩],
    [], [], [], [], 4, 0⟩

/-- C4 counterexample: the claim's normalization rule (scale only on the
words `million`/`billion`) disagrees with the code on `$2 B`: the code also
scales on the bare letter `B` (and `M`), normalizing `$2 B` to
2,000,000,000 where the claim's rule yields 2.  Moreover, on the claim's
own example text no amount entity has the value `$5.5 million USD` (the
actual detections are `$5`, `$100,000`, `$5.5 million` and
`5.5 million USD`), so the claim's example premise names a non-existent
entity. -/
theorem amount_normalization_counterexample :
    WFMatches tAmountB mAmountB ∧
      (extract_all tAmountB mAmountB 0).map
          (fun r => r.amounts.map (fun e => (e.value, e.metadata))) =
        some [(asciiBytes "$2", some [("normalized", 2)]),
          (asciiBytes "$2 B", some [("normalized", 2000000000)])] ∧
      specNormalizeAmount (asciiBytes "$2 B") = 2 ∧ (2000000000 : Rat) ≠ 2 ∧
      (extract_all tAmountEx mAmountEx 0).map
          (fun r => (r.amounts.map (fun e => e.value)).contains
            (asciiBytes "$5.5 million USD")) = some false :=
  ⟨by decide, by with_unfolding_all rfl, by with_unfolding_all rfl, by norm_num,
    by with_unfolding_all rfl⟩

/-- C4 (amended): every amount entity's metadata holds exactly the key
`normalized` with the value computed by the code's rule — strip thousands
separators and currency symbols, parse the leading whitespace-delimited
token, multiply by 1,000,000 when the lowercased text contains `million`
or the text contains the letter `M`, else by 1,000,000,000 when it
contains `billion` or the letter `B` (in that priority order), else leave
unscaled; an unparsable token normalizes to 0 and never fails the call.
On the example text the amount category yields 4 ≥ 2 entities, and the two
detections covering `$5.5 million USD` — `$5.5 million` and
`5.5 million USD` — both normalize to 5,500,000. -/
theorem amount_normalized_metadata :
    (∀ (text : List Nat) (m : Matches) (elapsed : Nat) (r : ExtractionResult),
        extract_all text m elapsed = some r →
        ∀ e ∈ r.amounts,
          e.metadata = some [("normalized", normalizeAmount e.value)]) ∧
      extract_all tAmountEx mAmountEx 0 = some rAmountEx ∧
      2 ≤ rAmountEx.amounts.length ∧
      rAmountEx.amounts.map (fun e => (e.value, e.metadata)) =
        [(asciiBytes "$5", some [("normalized", 5)]),
          (asciiBytes "$100,000", some [("normalized", 100000)]),
          (asciiBytes "$5.5 million", some [("normalized", 5500000)]),
          (asciiBytes "5.5 million USD", some [("normalized", 5500000)])] := by
  refine ⟨?_, by with_unfolding_all rfl, by norm_num [rAmountEx], by with_unfolding_all rfl⟩
  intro text m elapsed r h e he
  rw [extract_all, Option.map_eq_some'] at h
  obtain ⟨r0, h0, rfl⟩ := h
  obtain ⟨d, p, o, a, lo, hd, hp, ho, ha, hlo, rfl⟩ := extract_all_lists_inv h0
  obtain ⟨l0, h0', rfl⟩ := extract_amounts_inv ha
  rw [List.mem_map] at he
  obtain ⟨e0, _, rfl⟩ := he
  rfl

/-- Witness for C4 (amended): the `$5.5 million` entity of the example. -/
theorem amount_normalized_metadata_witness :
    extract_all tAmountEx mAmountEx 0 = some rAmountEx ∧
      (⟨asciiBytes "$5.5 million", "amount", 20, 32, 90 / 100, some tAmountEx,
          some [("normalized", 5500000)]⟩ : Entity).metadata =
        some [("normalized", normalizeAmount (asciiBytes "$5.5 million"))] :=
  ⟨by with_unfolding_all rfl,
    amount_normalized_metadata.1 tAmountEx mAmountEx 0 rAmountEx
      (by with_unfolding_all rfl) _
      (List.Mem.tail _ (List.Mem.tail _ (List.Mem.head _)))⟩

/-! Claim C8: a panic on multi-byte input. -/

/-- Text `2024-01-15` followed by twenty `€` (70 bytes; `€` is the 3-byte
sequence `226 130 172`).  Date rule 1 (ISO) matches `2024-01-15` at
`0..10`; no other rust-extract rule matches (the EU date rule needs two
separators after a word boundary, the amount rules need a currency marker
adjacent to digits, and there are no letters, slashes or digit triples for
the rest). -/
def tPanic : List Nat :=
  asciiBytes "2024-01-15" ++ (List.replicate 20 [226, 130, 172]).flatten

/-- Matches of the rust-extract rules on `tPanic`. -/
def mPanic : Matches := { emptyMatches with dates := [[(0, 10)], [], [], [], []] }

/-- C8 (code bug): the context snippet of `extract_with_patterns` slices
`text[start-50 .. min(end+50, len)]` at byte offsets; on `tPanic` the date
match ends at byte 10, the right context edge is byte 60, and byte 60 is
the third byte of a `€` — not a character boundary — so the Rust slice
panics and `extract_all`, `extract_types` and `extract_batch` all abort
instead of returning a result, contradicting the claim that every call
returns normally on arbitrary input. -/
theorem extraction_panics_on_multibyte_context :
    WFMatches tPanic mPanic ∧ extract_all tPanic mPanic 0 = none ∧
      extract_types tPanic ["dates"] mPanic 0 = none ∧
      extract_batch [(tPanic, mPanic, 0)] = none :=
  ⟨by decide, by with_unfolding_all rfl, by with_unfolding_all rfl,
    by with_unfolding_all rfl⟩

/-! Claims C6 and C9: batch alignment and idempotence, and the
processing-time field. -/

/-- Erasing the elapsed-time measurement leaves a result that depends only
on the text and its matches, not on the clock. -/
theorem extract_all_time_erase (text : List Nat) (m : Matches) (t1 t2 : Nat) :
    (extract_all text m t1).map (fun r => { r with processing_time_ms := 0 }) =
      (extract_all text m t2).map (fun r => { r with processing_time_ms := 0 }) := by
  rw [extract_all, extract_all]
  cases extract_all_lists text m <;> rfl

/-- C9 counterexample: two calls of `extract_all` on the same text whose
elapsed-time measurements differ (0 ms and 1 ms) return records differing
in the `processing_time_ms` field, so not every field of the two results
is equal. -/
theorem extract_all_identical_counterexample :
    extract_all tEmail mEmail 0 = some rEmail ∧
      extract_all tEmail mEmail 1 = some { rEmail with processing_time_ms := 1 } ∧
      rEmail ≠ { rEmail with processing_time_ms := 1 } := by
  refine ⟨by with_unfolding_all rfl, by with_unfolding_all rfl, fun hc => ?_⟩
  have := congrArg ExtractionResult.processing_time_ms hc
  simp [rEmail] at this

/-- C9 (amended): `extract_all` is deterministic in everything but the
elapsed-time measurement — two calls on identical text (with any two
clock readings) agree on every entity list and on `total_count`;
equivalently the results are equal after erasing `processing_time_ms`. -/
theorem extract_all_deterministic_content (text : List Nat) (m : Matches)
    (t1 t2 : Nat) :
    (extract_all text m t1).map (fun r => { r with processing_time_ms := 0 }) =
      (extract_all text m t2).map (fun r => { r with processing_time_ms := 0 }) :=
  extract_all_time_erase text m t1 t2

/-- C6 counterexample: a batch whose single document measures 1 ms and a
standalone `extract_all` of the same document measuring 0 ms disagree in
the `processing_time_ms` field, so `extract_batch(docs)[i]` is not equal to
an independent `extract_all(docs[i])` in every field. -/
theorem batch_pointwise_counterexample :
    extract_batch [(tEmail, mEmail, 1)] =
        some [{ rEmail with processing_time_ms := 1 }] ∧
      extract_all tEmail mEmail 0 = some rEmail ∧
      ({ rEmail with processing_time_ms := 1 } : ExtractionResult) ≠ rEmail := by
  refine ⟨by with_unfolding_all rfl, by with_unfolding_all rfl, fun hc => ?_⟩
  have := congrArg ExtractionResult.processing_time_ms hc
  simp [rEmail] at this

/-- C6 (amended): `extract_batch` returns exactly one result per input
document, positionally aligned with input order; entry `i` equals
`extract_all` of document `i` run with the batch's own elapsed-time
measurement, and agrees with any independent `extract_all(docs[i])` on
every field except `processing_time_ms`. -/
theorem batch_pointwise_extract_all (docs : List BatchDoc)
    (rs : List ExtractionResult) (h : extract_batch docs = some rs) :
    rs.length = docs.length ∧
      (∀ dr ∈ docs.zip rs, extract_all dr.1.1 dr.1.2.1 dr.1.2.2 = some dr.2) ∧
      (∀ dr ∈ docs.zip rs, ∀ elapsed : Nat,
        (extract_all dr.1.1 dr.1.2.1 elapsed).map
            (fun r => { r with processing_time_ms := 0 }) =
          some { dr.2 with processing_time_ms := 0 }) := by
  have hz := extract_batch_zip docs rs h
  refine ⟨hz.1, hz.2, ?_⟩
  intro dr hdr elapsed
  rw [extract_all_time_erase dr.1.1 dr.1.2.1 elapsed dr.1.2.2, hz.2 dr hdr]
  rfl

/-- Witness for C6 (amended) at a one-document batch. -/
theorem batch_pointwise_extract_all_witness :
    ([({ rEmail with processing_time_ms := 1 } : ExtractionResult)]).length =
        ([((tEmail, mEmail, 1) : BatchDoc)]).length ∧
      (∀ dr ∈ ([((tEmail, mEmail, 1) : BatchDoc)]).zip
          [({ rEmail with processing_time_ms := 1 } : ExtractionResult)],
        extract_all dr.1.1 dr.1.2.1 dr.1.2.2 = some dr.2) ∧
      (∀ dr ∈ ([((tEmail, mEmail, 1) : BatchDoc)]).zip
          [({ rEmail with processing_time_ms := 1 } : ExtractionResult)],
        ∀ elapsed : Nat,
          (extract_all dr.1.1 dr.1.2.1 elapsed).map
              (fun r => { r with processing_time_ms := 0 }) =
            some { dr.2 with processing_time_ms := 0 }) :=
  batch_pointwise_extract_all [(tEmail, mEmail, 1)]
    [{ rEmail with processing_time_ms := 1 }] (by with_unfolding_all rfl)


/-! Claim C7: extract_types runs exactly the requested extractors. -/

/-- The category names `extract_types` recognizes (`organizations` and
`orgs` both select the organization extractor). -/
def recognizedNames : List String :=
  ["dates", "persons", "organizations", "orgs", "amounts", "locations",
    "emails", "phones", "urls"]

/-- C7: a successful `extract_types` runs exactly the extractors named in
the request — every requested category's list is its extractor's output
and every unrequested category's list is empty, `total_count` is the sum of
all eight list lengths — and the outcome depends only on which recognized
names are present: requests agreeing on the nine recognized names (so
requests differing only in unrecognized names, which are silently ignored
and are not an error) produce identical results. -/
theorem extract_types_requested_only :
    (∀ (text : List Nat) (tys : List String) (m : Matches) (elapsed : Nat)
        (r : ExtractionResult),
        extract_types text tys m elapsed = some r →
        ((tys.contains "dates" = true → extract_dates text m.dates = some r.dates) ∧
            (tys.contains "dates" = false → r.dates = [])) ∧
          ((tys.contains "persons" = true →
              extract_persons text m.persons = some r.persons) ∧
            (tys.contains "persons" = false → r.persons = [])) ∧
          (((tys.contains "organizations" || tys.contains "orgs") = true →
              extract_organizations text m.orgs = some r.organizations) ∧
            ((tys.contains "organizations" || tys.contains "orgs") = false →
              r.organizations = [])) ∧
          ((tys.contains "amounts" = true →
              extract_amounts text m.amounts = some r.amounts) ∧
            (tys.contains "amounts" = false → r.amounts = [])) ∧
          ((tys.contains "locations" = true →
              extract_locations text m.locations = some r.locations) ∧
            (tys.contains "locations" = false → r.locations = [])) ∧
          ((tys.contains "emails" = true → r.emails = extract_emails text m.emails) ∧
            (tys.contains "emails" = false → r.emails = [])) ∧
          ((tys.contains "phones" = true → r.phones = extract_phones text m.phones) ∧
            (tys.contains "phones" = false → r.phones = [])) ∧
          ((tys.contains "urls" = true → r.urls = extract_urls text m.urls) ∧
            (tys.contains "urls" = false → r.urls = [])) ∧
          r.total_count = r.dates.length + r.persons.length +
            r.organizations.length + r.amounts.length + r.locations.length +
            r.emails.length + r.phones.length + r.urls.length) ∧
    (∀ (text : List Nat) (tys tys' : List String) (m : Matches) (elapsed : Nat),
        (∀ n ∈ recognizedNames, tys.contains n = tys'.contains n) →
        extract_types text tys m elapsed = extract_types text tys' m elapsed) := by
  constructor
  · intro text tys m elapsed r h
    rw [extract_types, Option.map_eq_some'] at h
    obtain ⟨r0, h0, rfl⟩ := h
    obtain ⟨h1, h2, h3, h4, h5, h6, h7, h8, h9, _⟩ := extract_types_lists_inv h0
    refine ⟨⟨?_, ?_⟩, ⟨?_, ?_⟩, ⟨?_, ?_⟩, ⟨?_, ?_⟩, ⟨?_, ?_⟩, ⟨?_, ?_⟩,
      ⟨?_, ?_⟩, ⟨?_, ?_⟩, h9⟩ <;> intro hc
    · rw [if_pos hc] at h1; exact h1
    · rw [if_neg (by rw [hc]; exact Bool.false_ne_true)] at h1; exact h1
    · rw [if_pos hc] at h2; exact h2
    · rw [if_neg (by rw [hc]; exact Bool.false_ne_true)] at h2; exact h2
    · rw [if_pos hc] at h3; exact h3
    · rw [if_neg (by rw [hc]; exact Bool.false_ne_true)] at h3; exact h3
    · rw [if_pos hc] at h4; exact h4
    · rw [if_neg (by rw [hc]; exact Bool.false_ne_true)] at h4; exact h4
    · rw [if_pos hc] at h5; exact h5
    · rw [if_neg (by rw [hc]; exact Bool.false_ne_true)] at h5; exact h5
    · rw [h6, if_pos hc]
    · rw [h6, if_neg (by rw [hc]; exact Bool.false_ne_true)]
    · rw [h7, if_pos hc]
    · rw [h7, if_neg (by rw [hc]; exact Bool.false_ne_true)]
    · rw [h8, if_pos hc]
    · rw [h8, if_neg (by rw [hc]; exact Bool.false_ne_true)]
  · intro text tys tys' m elapsed hsame
    have e1 := hsame "dates" (by simp [recognizedNames])
    have e2 := hsame "persons" (by simp [recognizedNames])
    have e3 := hsame "organizations" (by simp [recognizedNames])
    have e4 := hsame "orgs" (by simp [recognizedNames])
    have e5 := hsame "amounts" (by simp [recognizedNames])
    have e6 := hsame "locations" (by simp [recognizedNames])
    have e7 := hsame "emails" (by simp [recognizedNames])
    have e8 := hsame "phones" (by simp [recognizedNames])
    have e9 := hsame "urls" (by simp [recognizedNames])
    rw [extract_types, extract_types]
    rw [show extract_types_lists text tys m = extract_types_lists text tys' m by
      simp only [extract_types_lists, e1, e2, e3, e4, e5, e6, e7, e8, e9]]

/-- Witness for C7: the request `["emails", "bogus"]` on `tEmail` returns
only the email list, counts it, and is indistinguishable from the request
`["emails"]` — the unrecognized name contributes nothing. -/
theorem extract_types_requested_only_witness :
    extract_types tEmail ["emails", "bogus"] mEmail 0 = some rEmail ∧
      rEmail.dates = [] ∧
      rEmail.total_count = rEmail.dates.length + rEmail.persons.length +
        rEmail.organizations.length + rEmail.amounts.length +
        rEmail.locations.length + rEmail.emails.length + rEmail.phones.length +
        rEmail.urls.length ∧
      extract_types tEmail ["emails", "bogus"] mEmail 0 =
        extract_types tEmail ["emails"] mEmail 0 :=
  ⟨by with_unfolding_all rfl,
    ((extract_types_requested_only.1 tEmail ["emails", "bogus"] mEmail 0 rEmail
        (by with_unfolding_all rfl)).1).2 (by decide),
    (extract_types_requested_only.1 tEmail ["emails", "bogus"] mEmail 0 rEmail
        (by with_unfolding_all rfl)).2.2.2.2.2.2.2.2,
    extract_types_requested_only.2 tEmail ["emails", "bogus"] ["emails"] mEmail 0
      (by decide)⟩

/-! Claim C10: the raw pass of the wasm `extract_entities`. -/

/-- Matches of the wasm highlighter regexes on `tEmail` (`a@b.co`): only
the email regex matches, at `0..6`. -/
def wEmail : WMatches := ⟨[], [], [], [], [], [(0, 6)]⟩

/-- C10 counterexample: on `a@b.co` the code's `extract_entities` returns
nothing — it has no email collection loop — while the six-category pass the
spec describes would return the email match. -/
theorem extract_entities_missing_email :
    extract_entities tEmail wEmail = [] ∧
      extract_entities_spec tEmail wEmail =
        [⟨asciiBytes "a@b.co", "email", 0, 6⟩] ∧
      wEmail.emails = [(0, 6)] :=
  ⟨by decide, by decide, by decide⟩

/-- C10 (amended): `extract_entities` performs a raw collection pass over
five categories — person, organization, amount, date, location; the code
has no email loop — and returns every raw match of those five, with no
overlap resolution and no dedup: the output length is the sum of the five
match-list lengths, every raw match appears tagged at its offsets, and no
email entity is ever produced. -/
theorem extract_entities_raw_five_categories (text : List Nat) (w : WMatches) :
    (extract_entities text w).length =
        w.persons.length + w.orgs.length + w.amounts.length + w.dates.length +
          w.locations.length ∧
      (∀ p ∈ w.persons,
        (⟨sliceB text p.1 p.2, "person", p.1, p.2⟩ : HighlightedEntity) ∈
          extract_entities text w) ∧
      (∀ p ∈ w.orgs,
        (⟨sliceB text p.1 p.2, "organization", p.1, p.2⟩ : HighlightedEntity) ∈
          extract_entities text w) ∧
      (∀ p ∈ w.amounts,
        (⟨sliceB text p.1 p.2, "amount", p.1, p.2⟩ : HighlightedEntity) ∈
          extract_entities text w) ∧
      (∀ p ∈ w.dates,
        (⟨sliceB text p.1 p.2, "date", p.1, p.2⟩ : HighlightedEntity) ∈
          extract_entities text w) ∧
      (∀ p ∈ w.locations,
        (⟨sliceB text p.1 p.2, "location", p.1, p.2⟩ : HighlightedEntity) ∈
          extract_entities text w) ∧
      (∀ e ∈ extract_entities text w, e.entity_type ≠ "email") := by
  refine ⟨?_, ?_, ?_, ?_, ?_, ?_, ?_⟩
  · simp only [extract_entities, List.length_map, List.length_append, tagSpans]
  · intro p hp
    simp only [extract_entities, tagSpans]
    exact List.mem_map_of_mem _
      (List.mem_append_left _ (List.mem_append_left _ (List.mem_append_left _
        (List.mem_append_left _ (List.mem_map_of_mem _ hp)))))
  · intro p hp
    simp only [extract_entities, tagSpans]
    exact List.mem_map_of_mem _
      (List.mem_append_left _ (List.mem_append_left _ (List.mem_append_left _
        (List.mem_append_right _ (List.mem_map_of_mem _ hp)))))
  · intro p hp
    simp only [extract_entities, tagSpans]
    exact List.mem_map_of_mem _
      (List.mem_append_left _ (List.mem_append_left _
        (List.mem_append_right _ (List.mem_map_of_mem _ hp))))
  · intro p hp
    simp only [extract_entities, tagSpans]
    exact List.mem_map_of_mem _
      (List.mem_append_left _
        (List.mem_append_right _ (List.mem_map_of_mem _ hp)))
  · intro p hp
    simp only [extract_entities, tagSpans]
    exact List.mem_map_of_mem _
      (List.mem_append_right _ (List.mem_map_of_mem _ hp))
  · intro e he
    simp only [extract_entities, List.mem_map] at he
    obtain ⟨sp, hs, rfl⟩ := he
    simp only [tagSpans, List.mem_append, List.mem_map] at hs
    rcases hs with ((((⟨p, _, rfl⟩ | ⟨p, _, rfl⟩) | ⟨p, _, rfl⟩) | ⟨p, _, rfl⟩) |
      ⟨p, _, rfl⟩) <;> simp

/-- Witness for C10 (amended) on `Bob Smith Inc` with its person and
organization matches. -/
theorem extract_entities_raw_five_categories_witness :
    (extract_entities (asciiBytes "Bob Smith Inc")
        ⟨[(0, 9)], [(0, 13)], [], [], [], []⟩).length = 2 ∧
      (⟨asciiBytes "Bob Smith", "person", 0, 9⟩ : HighlightedEntity) ∈
        extract_entities (asciiBytes "Bob Smith Inc")
          ⟨[(0, 9)], [(0, 13)], [], [], [], []⟩ :=
  ⟨by
      rw [(extract_entities_raw_five_categories (asciiBytes "Bob Smith Inc")
        ⟨[(0, 9)], [(0, 13)], [], [], [], []⟩).1]
      rfl,
    (extract_entities_raw_five_categories (asciiBytes "Bob Smith Inc")
        ⟨[(0, 9)], [(0, 13)], [], [], [], []⟩).2.1 (0, 9) (by decide)⟩

end NER
